import Mathlib

/-!
Verification of the `serde_yml` YAML serialization library against its
natural-language specification.

The development shallowly embeds the relevant parts of the Rust source:

* `src/number.rs` — the `Number` data model (`N`, constructors, equality,
  `total_cmp`, `PartialOrd`, saturating conversions).  Rust's `f64` is
  modelled by the inductive `F` below: a finite double is represented by its
  exact rational value (every finite IEEE-754 double is a rational), with
  separate constructors for `-0.0`, the two infinities, and NaN bit
  patterns (sign bit plus payload), so that bit-identity, IEEE comparison
  semantics and NaN canonicalization are all expressible.
* `src/ser.rs` — the event-emitting `Serializer` with its document-depth
  counter and the enum-tag detection `State` machine.
* `src/with.rs` — the `singleton_map` proxy serializer and the
  corresponding singleton-map enum decoding.

Machine integers are modelled as `Nat`/`Int` with explicit range constants
and wrap-around casts where the source performs an `as` cast.
-/

namespace SerdeYml

/-! ## Model of `f64` (IEEE-754 binary64 values as used by `number.rs`) -/

/-- Model of an `f64` bit pattern.  `fin q` is a finite double of numeric
value `q` (covering `+0.0` as `fin 0`); `negZero` is `-0.0`; `nan` carries
the sign bit and the remaining significand payload so that distinct NaN bit
patterns are distinguishable. -/
inductive F where
  | fin (q : ℚ)
  | negZero
  | inf
  | negInf
  | nan (negSign : Bool) (payload : ℕ)
deriving DecidableEq, Repr

namespace F

/-- Rust `f64::is_nan`. -/
def isNan : F → Bool
  | .nan _ _ => true
  | _ => false

/-- Rust `f64::is_sign_negative` (true for `-0.0`, `-∞`, negative finite
values, and NaN with the sign bit set). -/
def isSignNegative : F → Bool
  | .fin q => decide (q < 0)
  | .negZero => true
  | .inf => false
  | .negInf => true
  | .nan s _ => s

/-- Numeric magnitude class used to compare non-NaN doubles:
`-∞` below all finite values below `+∞`; NaN ranked above everything
(only used by `total_cmp`'s NaN-last policy). -/
def rank : F → ℕ
  | .negInf => 0
  | .fin _ => 1
  | .negZero => 1
  | .inf => 2
  | .nan _ _ => 3

/-- Numeric value of a finite double (`-0.0` has value `0`); irrelevant
(zero) for the other constructors, which are separated by `rank`. -/
def val : F → ℚ
  | .fin q => q
  | _ => 0

end F

/-- Three-way comparison of a linear order, mirroring Rust `Ord::cmp`. -/
def lcmp {α : Type} [LinearOrder α] (x y : α) : Ordering :=
  if x < y then .lt else if x = y then .eq else .gt

/-- IEEE-754 partial comparison of two doubles, mirroring Rust
`f64::partial_cmp`: `None` whenever either side is NaN, otherwise the
numeric order (`-0.0` equal to `+0.0`, infinities at the extremes). -/
def F.pcmp (a b : F) : Option Ordering :=
  if a.isNan || b.isNan then none
  else some (match lcmp a.rank b.rank with
             | .eq => lcmp a.val b.val
             | o => o)

/-- IEEE-754 equality of two doubles, mirroring Rust `f64 == f64`
(false whenever either side is NaN, `-0.0 == +0.0`). -/
def F.beq (a b : F) : Bool :=
  F.pcmp a b == some .eq

/-- Rust `f64::trunc`: round toward zero.  NaN and infinities pass
through unchanged; `-0.0` truncates to itself. -/
def F.trunc : F → F
  | .fin q => .fin (Int.tdiv q.num q.den : ℤ)
  | f => f

/-! ## The `Number` data model (`src/number.rs`) -/

/-- The private enum `N` of `number.rs`: a positive integer (`u64`),
a negative integer (`i64`), or a float (`f64`). -/
inductive N where
  | positiveInteger (v : ℕ)
  | negativeInteger (v : ℤ)
  | float (f : F)
deriving DecidableEq, Repr

/-- The public `Number` wrapper struct of `number.rs`. -/
structure Number where
  n : N
deriving DecidableEq, Repr

/-- Range invariants the Rust representation guarantees by construction:
the `u64` field fits in 64 bits and the `i64` field is a negative `i64`
(`from_i64` and the `From` impls only store negatives there). -/
def Number.wf (x : Number) : Prop :=
  match x.n with
  | .positiveInteger u => u < 2 ^ 64
  | .negativeInteger i => -(2 ^ 63) ≤ i ∧ i < 0
  | .float _ => True

/-- `N::total_cmp` from `number.rs`: integers compare by value with
negatives below positives, floats compare by IEEE order with NaN sorted
last (two NaNs equal), and every integer sorts below every float. -/
def N.total_cmp : N → N → Ordering
  | .positiveInteger a, .positiveInteger b => lcmp a b
  | .negativeInteger a, .negativeInteger b => lcmp a b
  | .negativeInteger _, .positiveInteger _ => .lt
  | .positiveInteger _, .negativeInteger _ => .gt
  | .float a, .float b =>
      match F.pcmp a b with
      | some o => o
      | none =>
          if a.isNan = false then .lt
          else if b.isNan = false then .gt
          else .eq
  | _, .float _ => .lt
  | .float _, _ => .gt

/-- `impl PartialOrd for N` from `number.rs`: both-NaN floats compare
`Equal`, other float pairs use IEEE `partial_cmp` (hence `None` when
exactly one side is NaN), and every other pair falls through to
`total_cmp`. -/
def N.partial_cmp : N → N → Option Ordering
  | .float a, .float b =>
      if a.isNan && b.isNan then some .eq else F.pcmp a b
  | a, b => some (N.total_cmp a b)

/-- `impl PartialEq for N` from `number.rs`: same-variant comparison by
value, with two NaN floats equal. -/
def N.eqb : N → N → Bool
  | .positiveInteger a, .positiveInteger b => a == b
  | .negativeInteger a, .negativeInteger b => a == b
  | .float a, .float b => if a.isNan && b.isNan then true else F.beq a b
  | _, _ => false

/-- `Number::total_cmp` (delegates to the inner `N`). -/
def Number.total_cmp (a b : Number) : Ordering :=
  N.total_cmp a.n b.n

/-- `Number`'s derived `PartialOrd` (delegates to the single field's
`N::partial_cmp`). -/
def Number.partial_cmp (a b : Number) : Option Ordering :=
  N.partial_cmp a.n b.n

/-- `Number`'s derived `PartialEq` (delegates to `N::eq`). -/
def Number.eqb (a b : Number) : Bool :=
  N.eqb a.n b.n

/-- The canonical NaN bit pattern produced by `f64::NAN.copysign(1.0)`
in `impl From<f64> for Number`: sign-positive, quiet, zero payload. -/
def canonicalNan : F := F.nan false 0

/-- `impl From<f64> for Number` from `number.rs`: NaN inputs are replaced
by the single canonical NaN bit pattern before being stored. -/
def Number.fromF64 (f : F) : Number :=
  if f.isNan then ⟨.float canonicalNan⟩ else ⟨.float f⟩

/-- `Number::from_i64` (and the `From<i64>` impl, which has the same
body): negative inputs become `NegativeInteger`, the rest
`PositiveInteger`. -/
def Number.from_i64 (i : ℤ) : Number :=
  if i < 0 then ⟨.negativeInteger i⟩ else ⟨.positiveInteger i.toNat⟩

/-- `Number::from_u64`. -/
def Number.from_u64 (u : ℕ) : Number :=
  ⟨.positiveInteger u⟩

/-! ### Saturating narrowing (`to_i32_saturating`, `to_u32_saturating`) -/

def i32MaxI : ℤ := 2 ^ 31 - 1
def i32MinI : ℤ := -(2 ^ 31)
def u32MaxI : ℤ := 2 ^ 32 - 1
def i64MaxI : ℤ := 2 ^ 63 - 1

/-- Rust's wrapping `as i32` cast on an integer value. -/
def i32cast (i : ℤ) : ℤ :=
  (i + 2 ^ 31) % 2 ^ 32 - 2 ^ 31

/-- `Number::to_i32_saturating` from `number.rs`: `u64` values clamp via
`u.min(i32::MAX as u64)`, `i64` values saturate at `i32::MIN`, floats
map NaN to `0` and otherwise truncate toward zero and saturate at the
`i32` bounds. -/
def Number.to_i32_saturating (x : Number) : ℤ :=
  match x.n with
  | .positiveInteger u => i32cast (min (u : ℤ) i32MaxI)
  | .negativeInteger i => if i < i32MinI then i32MinI else i32cast i
  | .float f =>
      match f with
      | .nan _ _ => 0
      | .inf => i32MaxI
      | .negInf => i32MinI
      | .negZero => 0
      | .fin q =>
          let t : ℤ := Int.tdiv q.num q.den
          if i32MaxI < t then i32MaxI
          else if t < i32MinI then i32MinI
          else i32cast t

/-- `Number::to_u32_saturating` from `number.rs`: `u64` values clamp via
`u.min(u32::MAX as u64)`, negative integers become `0`, floats map NaN
and sign-negative values to `0` and otherwise truncate toward zero and
saturate at `u32::MAX`. -/
def Number.to_u32_saturating (x : Number) : ℤ :=
  match x.n with
  | .positiveInteger u => min (u : ℤ) u32MaxI
  | .negativeInteger _ => 0
  | .float f =>
      match f with
      | .nan _ _ => 0
      | .negZero => 0
      | .negInf => 0
      | .inf => u32MaxI
      | .fin q =>
          if q < 0 then 0
          else
            let t : ℤ := Int.tdiv q.num q.den
            if u32MaxI < t then u32MaxI else t

/-- Spec-side clamp to the `i32` range ("integers clamp to the target
type's range"). -/
def i32Clamp (x : ℤ) : ℤ := max i32MinI (min i32MaxI x)

/-- Spec-side clamp to the `u32` range. -/
def u32Clamp (x : ℤ) : ℤ := max 0 (min u32MaxI x)

/-- Spec-side description of `to_i32_saturating`, written from the
claim's words: integer variants clamp to the `i32` range; float variants
truncate toward zero then clamp (infinities clamp to the respective
bound); NaN gives `0`. -/
def specToI32 (x : Number) : ℤ :=
  match x.n with
  | .positiveInteger u => i32Clamp u
  | .negativeInteger i => i32Clamp i
  | .float f =>
      match f with
      | .nan _ _ => 0
      | .inf => i32MaxI
      | .negInf => i32MinI
      | .negZero => 0
      | .fin q => i32Clamp (Int.tdiv q.num q.den)

/-- Spec-side description of `to_u32_saturating`, written from the
claim's words. -/
def specToU32 (x : Number) : ℤ :=
  match x.n with
  | .positiveInteger u => u32Clamp u
  | .negativeInteger i => u32Clamp i
  | .float f =>
      match f with
      | .nan _ _ => 0
      | .inf => u32MaxI
      | .negInf => 0
      | .negZero => 0
      | .fin q => u32Clamp (Int.tdiv q.num q.den)

/-! ### Order-key characterization of `total_cmp`

`N.total_cmp` is shown to coincide with `lcmp` on a lexicographic key,
from which totality and transitivity follow. -/

theorem lcmp_self {α : Type} [LinearOrder α] (x : α) : lcmp x x = .eq := by
  simp [lcmp]

theorem lcmp_eq_lt_iff {α : Type} [LinearOrder α] {x y : α} :
    lcmp x y = .lt ↔ x < y := by
  unfold lcmp
  by_cases h1 : x < y
  · simp [h1]
  · by_cases h2 : x = y
    · simp [h1, h2]
    · simp [h1, h2]

theorem lcmp_eq_eq_iff {α : Type} [LinearOrder α] {x y : α} :
    lcmp x y = .eq ↔ x = y := by
  unfold lcmp
  by_cases h1 : x < y
  · simp [h1, ne_of_lt h1]
  · by_cases h2 : x = y
    · simp [h1, h2]
    · simp [h1, h2]

theorem lcmp_eq_gt_iff {α : Type} [LinearOrder α] {x y : α} :
    lcmp x y = .gt ↔ y < x := by
  unfold lcmp
  by_cases h1 : x < y
  · simp [h1, h1.asymm]
  · by_cases h2 : x = y
    · simp [h1, h2]
    · simp [h1, h2, lt_of_le_of_ne (not_lt.mp h1) (Ne.symm h2)]

theorem lcmp_lex_fst_lt {α β : Type} [LinearOrder α] [LinearOrder β]
    {x y : α} (v w : β) (h : x < y) :
    lcmp (toLex (x, v)) (toLex (y, w)) = .lt := by
  rw [lcmp_eq_lt_iff, Prod.Lex.lt_iff]
  exact Or.inl h

theorem lcmp_lex_fst_gt {α β : Type} [LinearOrder α] [LinearOrder β]
    {x y : α} (v w : β) (h : y < x) :
    lcmp (toLex (x, v)) (toLex (y, w)) = .gt := by
  rw [lcmp_eq_gt_iff, Prod.Lex.lt_iff]
  exact Or.inl h

theorem lcmp_lex_fst_eq {α β : Type} [LinearOrder α] [LinearOrder β]
    (x : α) (v w : β) :
    lcmp (toLex (x, v)) (toLex (x, w)) = lcmp v w := by
  rcases lt_trichotomy v w with h | h | h
  · rw [lcmp_eq_lt_iff.mpr h, lcmp_eq_lt_iff, Prod.Lex.lt_iff]
    exact Or.inr ⟨rfl, h⟩
  · subst h
    rw [lcmp_self, lcmp_self]
  · rw [lcmp_eq_gt_iff.mpr h, lcmp_eq_gt_iff, Prod.Lex.lt_iff]
    exact Or.inr ⟨rfl, h⟩

theorem lcmp_lex_pad {α β : Type} [LinearOrder α] [LinearOrder β]
    (x y : α) (c : β) :
    lcmp (toLex (x, c)) (toLex (y, c)) = lcmp x y := by
  rcases lt_trichotomy x y with h | h | h
  · rw [lcmp_lex_fst_lt _ _ h, lcmp_eq_lt_iff.mpr h]
  · subst h
    rw [lcmp_lex_fst_eq, lcmp_self, lcmp_self]
  · rw [lcmp_lex_fst_gt _ _ h, lcmp_eq_gt_iff.mpr h]

theorem lcmp_cast_nat (a b : ℕ) : lcmp (a : ℤ) (b : ℤ) = lcmp a b := by
  rcases lt_trichotomy a b with h | h | h
  · rw [lcmp_eq_lt_iff.mpr h, lcmp_eq_lt_iff]; exact_mod_cast h
  · subst h; rw [lcmp_self, lcmp_self]
  · rw [lcmp_eq_gt_iff.mpr h, lcmp_eq_gt_iff]; exact_mod_cast h

/-- The lexicographic key on which `N.total_cmp` is an order comparison:
variant class (negative integer, positive integer, float), then integer
value, then float rank, then float value. -/
abbrev NKey : Type := ℕ ×ₗ (ℤ ×ₗ (ℕ ×ₗ ℚ))

/-- Key of an `N` value under `total_cmp`'s ordering policy. -/
def N.key : N → NKey
  | .negativeInteger i => toLex (0, toLex (i, toLex (0, 0)))
  | .positiveInteger u => toLex (1, toLex ((u : ℤ), toLex (0, 0)))
  | .float f => toLex (2, toLex (0, toLex (f.rank, f.val)))

theorem F.rank_lt_three {f : F} (h : f.isNan = false) : f.rank < 3 := by
  cases f <;> simp_all [F.rank, F.isNan]

theorem F.rank_nan {f : F} (h : f.isNan = true) : f.rank = 3 ∧ f.val = 0 := by
  cases f <;> simp_all [F.rank, F.isNan, F.val]

/-- The float arm of `total_cmp` (IEEE partial comparison with NaN sorted
last) is `lcmp` on `(rank, val)`. -/
theorem float_arm_eq_key (a b : F) :
    (match F.pcmp a b with
     | some o => o
     | none =>
         if a.isNan = false then .lt
         else if b.isNan = false then .gt
         else .eq) =
      lcmp (toLex (a.rank, a.val)) (toLex (b.rank, b.val)) := by
  cases ha : a.isNan <;> cases hb : b.isNan
  · rw [show F.pcmp a b = some (match lcmp a.rank b.rank with
        | .eq => lcmp a.val b.val
        | o => o) from by simp [F.pcmp, ha, hb]]
    rcases lt_trichotomy a.rank b.rank with h | h | h
    · rw [lcmp_eq_lt_iff.mpr h]
      exact (lcmp_lex_fst_lt _ _ h).symm
    · rw [h, lcmp_self, lcmp_lex_fst_eq]
    · rw [lcmp_eq_gt_iff.mpr h]
      exact (lcmp_lex_fst_gt _ _ h).symm
  · rw [show F.pcmp a b = none from by simp [F.pcmp, hb]]
    have h : a.rank < b.rank := by
      rw [(F.rank_nan hb).1]; exact F.rank_lt_three ha
    exact (lcmp_lex_fst_lt _ _ h).symm
  · rw [show F.pcmp a b = none from by simp [F.pcmp, ha]]
    have h : b.rank < a.rank := by
      rw [(F.rank_nan ha).1]; exact F.rank_lt_three hb
    exact (lcmp_lex_fst_gt _ _ h).symm
  · rw [show F.pcmp a b = none from by simp [F.pcmp, ha]]
    obtain ⟨hra, hva⟩ := F.rank_nan ha
    obtain ⟨hrb, hvb⟩ := F.rank_nan hb
    rw [hra, hrb, hva, hvb, lcmp_self]
    rfl

/-- `N.total_cmp` is comparison of lexicographic keys. -/
theorem total_cmp_eq_key (a b : N) :
    N.total_cmp a b = lcmp a.key b.key := by
  cases a <;> cases b <;>
    simp only [N.total_cmp, N.key]
  · rw [lcmp_lex_fst_eq, lcmp_lex_pad, lcmp_cast_nat]
  · exact (lcmp_lex_fst_gt _ _ (by norm_num)).symm
  · exact (lcmp_lex_fst_lt _ _ (by norm_num)).symm
  · exact (lcmp_lex_fst_lt _ _ (by norm_num)).symm
  · rw [lcmp_lex_fst_eq, lcmp_lex_pad]
  · exact (lcmp_lex_fst_lt _ _ (by norm_num)).symm
  · exact (lcmp_lex_fst_gt _ _ (by norm_num)).symm
  · exact (lcmp_lex_fst_gt _ _ (by norm_num)).symm
  · rw [lcmp_lex_fst_eq, lcmp_lex_fst_eq]
    exact float_arm_eq_key _ _

theorem total_cmp_lt_iff (a b : Number) :
    a.total_cmp b = .lt ↔ a.n.key < b.n.key := by
  rw [Number.total_cmp, total_cmp_eq_key, lcmp_eq_lt_iff]

theorem total_cmp_eq_iff (a b : Number) :
    a.total_cmp b = .eq ↔ a.n.key = b.n.key := by
  rw [Number.total_cmp, total_cmp_eq_key, lcmp_eq_eq_iff]

theorem total_cmp_gt_iff (a b : Number) :
    a.total_cmp b = .gt ↔ b.n.key < a.n.key := by
  rw [Number.total_cmp, total_cmp_eq_key, lcmp_eq_gt_iff]

/-- C4: `Number::total_cmp` is a total order on `Number`: for every pair
exactly one of `Less`/`Equal`/`Greater` holds and the comparison is
transitive (in its strict, equal and non-strict forms); all negative
integers order below all non-negative integers; every float orders after
every integer regardless of magnitude; two NaN floats compare `Equal`;
and a NaN float orders after any non-NaN float. -/
theorem total_cmp_total_order :
    (∀ a b : Number,
      (a.total_cmp b = .lt ∧ ¬a.total_cmp b = .eq ∧ ¬a.total_cmp b = .gt) ∨
      (¬a.total_cmp b = .lt ∧ a.total_cmp b = .eq ∧ ¬a.total_cmp b = .gt) ∨
      (¬a.total_cmp b = .lt ∧ ¬a.total_cmp b = .eq ∧ a.total_cmp b = .gt)) ∧
    (∀ a b c : Number, a.total_cmp b = .lt → b.total_cmp c = .lt →
      a.total_cmp c = .lt) ∧
    (∀ a b c : Number, a.total_cmp b = .eq → b.total_cmp c = .eq →
      a.total_cmp c = .eq) ∧
    (∀ a b c : Number, a.total_cmp b ≠ .gt → b.total_cmp c ≠ .gt →
      a.total_cmp c ≠ .gt) ∧
    (∀ (i : ℤ) (u : ℕ),
      Number.total_cmp ⟨.negativeInteger i⟩ ⟨.positiveInteger u⟩ = .lt) ∧
    (∀ (f : F) (u : ℕ),
      Number.total_cmp ⟨.float f⟩ ⟨.positiveInteger u⟩ = .gt ∧
      Number.total_cmp ⟨.positiveInteger u⟩ ⟨.float f⟩ = .lt) ∧
    (∀ (f : F) (i : ℤ),
      Number.total_cmp ⟨.float f⟩ ⟨.negativeInteger i⟩ = .gt ∧
      Number.total_cmp ⟨.negativeInteger i⟩ ⟨.float f⟩ = .lt) ∧
    (∀ f g : F, f.isNan = true → g.isNan = true →
      Number.total_cmp ⟨.float f⟩ ⟨.float g⟩ = .eq) ∧
    (∀ f g : F, f.isNan = true → g.isNan = false →
      Number.total_cmp ⟨.float f⟩ ⟨.float g⟩ = .gt) := by
  refine ⟨?_, ?_, ?_, ?_, ?_, ?_, ?_, ?_, ?_⟩
  · intro a b
    cases h : a.total_cmp b <;> simp [h]
  · intro a b c h1 h2
    rw [total_cmp_lt_iff] at h1 h2 ⊢
    exact lt_trans h1 h2
  · intro a b c h1 h2
    rw [total_cmp_eq_iff] at h1 h2 ⊢
    exact h1.trans h2
  · intro a b c h1 h2
    rw [Ne, total_cmp_gt_iff, not_lt] at h1 h2 ⊢
    exact le_trans h1 h2
  · intro i u; rfl
  · intro f u; exact ⟨rfl, rfl⟩
  · intro f i; exact ⟨rfl, rfl⟩
  · intro f g h1 h2
    simp [Number.total_cmp, N.total_cmp, F.pcmp, h1, h2]
  · intro f g h1 h2
    simp [Number.total_cmp, N.total_cmp, F.pcmp, h1, h2]

theorem total_cmp_total_order_witness :
    Number.total_cmp ⟨.negativeInteger (-2)⟩ ⟨.float (.fin (1/2))⟩ = .lt ∧
    Number.total_cmp ⟨.float (.nan false 0)⟩ ⟨.float (.nan true 7)⟩ = .eq :=
  ⟨total_cmp_total_order.2.1 ⟨.negativeInteger (-2)⟩ ⟨.positiveInteger 3⟩
      ⟨.float (.fin (1/2))⟩ (by decide) (by decide),
   total_cmp_total_order.2.2.2.2.2.2.2.1 (.nan false 0) (.nan true 7)
      (by decide) (by decide)⟩

/-- C5: `Number` construction canonicalizes: any NaN `f64` is stored as
the single sign-positive quiet NaN bit pattern (so all NaN `Number`s are
bit-identical); a signed integer never lands in `PositiveInteger` when
negative; and `Number` equality treats any two NaNs as equal and `-0.0`
as equal to `+0.0`. -/
theorem number_construction_canonical :
    (∀ f : F, f.isNan = true → Number.fromF64 f = ⟨.float canonicalNan⟩) ∧
    (∀ f g : F, f.isNan = true → g.isNan = true →
      Number.fromF64 f = Number.fromF64 g) ∧
    (∀ i : ℤ, i < 0 → Number.from_i64 i = ⟨.negativeInteger i⟩) ∧
    (∀ i : ℤ, 0 ≤ i → Number.from_i64 i = ⟨.positiveInteger i.toNat⟩) ∧
    (∀ f g : F, f.isNan = true → g.isNan = true →
      Number.eqb ⟨.float f⟩ ⟨.float g⟩ = true) ∧
    Number.eqb ⟨.float .negZero⟩ ⟨.float (.fin 0)⟩ = true := by
  refine ⟨?_, ?_, ?_, ?_, ?_, ?_⟩
  · intro f h; simp [Number.fromF64, h]
  · intro f g h1 h2; simp [Number.fromF64, h1, h2]
  · intro i h; simp [Number.from_i64, h]
  · intro i h; simp [Number.from_i64, not_lt.mpr h]
  · intro f g h1 h2; simp [Number.eqb, N.eqb, h1, h2]
  · decide

theorem number_construction_canonical_witness :
    Number.fromF64 (F.nan true 99) = ⟨.float canonicalNan⟩ ∧
    Number.from_i64 (-7) = ⟨.negativeInteger (-7)⟩ :=
  ⟨number_construction_canonical.1 (F.nan true 99) (by decide),
   number_construction_canonical.2.2.1 (-7) (by decide)⟩

theorem tdiv_nonpos_of_nonpos_of_nonneg {a b : ℤ} (ha : a ≤ 0)
    (hb : 0 ≤ b) : a.tdiv b ≤ 0 := by
  have h := Int.tdiv_nonneg (a := -a) (b := b) (by omega) hb
  rw [Int.neg_tdiv] at h
  omega

/-- C6: saturating narrowing boundaries: `to_i32_saturating` of
`Number::from(i64::MAX)` is `i32::MAX`; `to_u32_saturating` of
`Number::from(-1)` is `0`; `to_i32_saturating` of a NaN float is `0`;
and for every (well-formed) `Number`, integer narrowing clamps to the
target range while float narrowing truncates toward zero then clamps. -/
theorem saturating_narrowing :
    Number.to_i32_saturating (Number.from_i64 i64MaxI) = i32MaxI ∧
    Number.to_u32_saturating (Number.from_i64 (-1)) = 0 ∧
    (∀ f : F, f.isNan = true → Number.to_i32_saturating ⟨.float f⟩ = 0) ∧
    (∀ x : Number, x.wf →
      x.to_i32_saturating = specToI32 x ∧
      x.to_u32_saturating = specToU32 x) := by
  refine ⟨by decide, by decide, ?_, ?_⟩
  · intro f h
    cases f <;> simp_all [Number.to_i32_saturating, F.isNan]
  · rintro ⟨n⟩ hwf
    cases n with
    | positiveInteger u =>
        constructor
        · simp only [Number.to_i32_saturating, specToI32, i32cast, i32Clamp,
            i32MaxI, i32MinI]
          omega
        · simp only [Number.to_u32_saturating, specToU32, u32Clamp, u32MaxI]
          omega
    | negativeInteger i =>
        obtain ⟨hlo, hneg⟩ := hwf
        constructor
        · simp only [Number.to_i32_saturating, specToI32, i32cast, i32Clamp,
            i32MaxI, i32MinI]
          split_ifs <;> omega
        · simp only [Number.to_u32_saturating, specToU32, u32Clamp, u32MaxI]
          omega
    | float f =>
        cases f with
        | fin q =>
            have hden : (0 : ℤ) ≤ (q.den : ℤ) := by positivity
            constructor
            · simp only [Number.to_i32_saturating, specToI32, i32cast,
                i32Clamp, i32MaxI, i32MinI]
              split_ifs <;> omega
            · simp only [Number.to_u32_saturating, specToU32, u32Clamp,
                u32MaxI]
              split_ifs with h1 h2
              · have hnum : q.num ≤ 0 := by
                  by_contra hc
                  exact absurd (Rat.num_nonneg.mp (by omega)) (not_le.mpr h1)
                have := tdiv_nonpos_of_nonpos_of_nonneg hnum hden
                omega
              · omega
              · have hnum : 0 ≤ q.num := Rat.num_nonneg.mpr (not_lt.mp h1)
                have := Int.tdiv_nonneg hnum hden
                omega
        | negZero => exact ⟨rfl, rfl⟩
        | inf => exact ⟨rfl, rfl⟩
        | negInf => exact ⟨rfl, rfl⟩
        | nan s p => exact ⟨rfl, rfl⟩

theorem saturating_narrowing_witness :
    Number.to_i32_saturating ⟨.float (.nan false 0)⟩ = 0 ∧
    Number.to_i32_saturating ⟨.negativeInteger (-5)⟩ =
      specToI32 ⟨.negativeInteger (-5)⟩ :=
  ⟨saturating_narrowing.2.2.1 (.nan false 0) (by decide),
   (saturating_narrowing.2.2.2 ⟨.negativeInteger (-5)⟩
      (by constructor <;> decide)).1⟩

/-- C10: `Number`'s `PartialOrd::partial_cmp` is not total: NaN against a
non-NaN float compares to `None`, NaN against NaN to `Some Equal`, and
NaN against any integer to `Some Greater` (through `total_cmp`). -/
theorem partial_cmp_not_total :
    (∀ f g : F, f.isNan = true → g.isNan = false →
      Number.partial_cmp ⟨.float f⟩ ⟨.float g⟩ = none) ∧
    (∀ f g : F, f.isNan = true → g.isNan = true →
      Number.partial_cmp ⟨.float f⟩ ⟨.float g⟩ = some .eq) ∧
    (∀ (f : F) (u : ℕ), f.isNan = true →
      Number.partial_cmp ⟨.float f⟩ ⟨.positiveInteger u⟩ = some .gt) ∧
    (∀ (f : F) (i : ℤ), f.isNan = true →
      Number.partial_cmp ⟨.float f⟩ ⟨.negativeInteger i⟩ = some .gt) := by
  refine ⟨?_, ?_, ?_, ?_⟩
  · intro f g h1 h2
    simp [Number.partial_cmp, N.partial_cmp, F.pcmp, h1, h2]
  · intro f g h1 h2
    simp [Number.partial_cmp, N.partial_cmp, h1, h2]
  · intro f u _
    simp [Number.partial_cmp, N.partial_cmp, N.total_cmp]
  · intro f i _
    simp [Number.partial_cmp, N.partial_cmp, N.total_cmp]

theorem partial_cmp_not_total_witness :
    Number.partial_cmp ⟨.float (.nan false 0)⟩ ⟨.float (.fin 1)⟩ = none ∧
    Number.partial_cmp ⟨.float (.nan false 0)⟩ ⟨.positiveInteger 5⟩ =
      some .gt :=
  ⟨partial_cmp_not_total.1 (.nan false 0) (.fin 1) (by decide) (by decide),
   partial_cmp_not_total.2.2.1 (.nan false 0) 5 (by decide)⟩

/-! ## The YAML `Serializer` of `src/ser.rs`

The serializer is modelled as a state machine over an event trace: the
`Emitter` collaborator (whose own source is outside `src/`) is modelled as
the list of events emitted so far, in order.  Everything else — the
document-depth counter, the enum-tag `State` machine, and every
`serialize_*`/`emit_*` method body — is translated from `ser.rs`. -/

/-- The scalar styles `ser.rs` uses (`libyml::emitter::ScalarStyle`):
`any` lets the emitter pick a style. -/
inductive ScalarStyle where
  | any
  | plain
  | singleQuoted
  | literal
deriving DecidableEq, Repr

/-- A scalar event payload (`libyml::emitter::Scalar`). -/
structure Scalar where
  tag : Option String
  value : String
  style : ScalarStyle
deriving DecidableEq, Repr

/-- The emitter events of `ser.rs` (`libyml::emitter::Event`). -/
inductive Event where
  | streamStart
  | streamEnd
  | documentStart
  | documentEnd
  | scalar (sc : Scalar)
  | sequenceStart (tag : Option String)
  | sequenceEnd
  | mappingStart (tag : Option String)
  | mappingEnd
deriving DecidableEq, Repr

/-- The `State` enum of `ser.rs` (enum-tag detection state machine). -/
inductive State where
  | NothingInParticular
  | CheckForTag
  | CheckForDuplicateTag
  | FoundTag (tag : String)
  | AlreadyTagged
deriving DecidableEq, Repr

/-- Whether the state is `FoundTag(_)` (the `matches!` tests in `ser.rs`). -/
def State.isFoundTag : State → Bool
  | .FoundTag _ => true
  | _ => false

/-- `SerializerConfig` of `ser.rs`. -/
structure SerializerConfig where
  tagUnitVariants : Bool
deriving DecidableEq, Repr

/-- The `Serializer` of `ser.rs`: configuration, recursion depth, tag
state, and the events already handed to the emitter. -/
structure Serializer where
  config : SerializerConfig
  depth : ℕ
  state : State
  events : List Event
deriving DecidableEq, Repr

/-- Hand one event to the emitter (append to the trace). -/
def emit (e : Event) (s : Serializer) : Serializer :=
  { s with events := s.events ++ [e] }

/-- `Serializer::new_with_config`: fresh state, depth `0`, and an
immediate `StreamStart` event. -/
def Serializer.new (config : SerializerConfig) : Serializer :=
  { config := config, depth := 0, state := .NothingInParticular,
    events := [Event.streamStart] }

/-- `Serializer::value_start`: a `DocumentStart` is emitted when the
depth is zero, then the depth is incremented. -/
def value_start (s : Serializer) : Serializer :=
  let s := if s.depth = 0 then emit .documentStart s else s
  { s with depth := s.depth + 1 }

/-- `Serializer::value_end`: the depth is decremented (saturating at
zero), and a `DocumentEnd` is emitted when it reaches zero. -/
def value_end (s : Serializer) : Serializer :=
  let s := { s with depth := s.depth - 1 }
  if s.depth = 0 then emit .documentEnd s else s

/-- `Serializer::take_tag`: a pending `FoundTag` is consumed and turned
into a `!`-prefixed YAML tag; any other state is left unchanged. -/
def take_tag (s : Serializer) : Option String × Serializer :=
  match s.state with
  | .FoundTag t =>
      (some (if t.startsWith "!" then t else "!" ++ t),
       { s with state := .NothingInParticular })
  | _ => (none, s)

/-- The body of `Serializer::emit_mapping_start` after its leading
`flush_mapping_start` call: `value_start`, consume any pending tag, and
emit `MappingStart`. -/
def mapping_start_after_flush (s : Serializer) : Serializer :=
  let s := value_start s
  let (tag, s) := take_tag s
  emit (.mappingStart tag) s

/-- `Serializer::flush_mapping_start`.  In the source, the `CheckForTag`
arm sets the state to `NothingInParticular` and then calls
`emit_mapping_start`, whose own leading `flush_mapping_start` is a no-op
at that point (the state was just reset); that inner no-op is inlined
here to break the mutual recursion. -/
def flush_mapping_start (s : Serializer) : Serializer :=
  match s.state with
  | .CheckForTag =>
      mapping_start_after_flush { s with state := .NothingInParticular }
  | .CheckForDuplicateTag => { s with state := .NothingInParticular }
  | _ => s

/-- `Serializer::emit_mapping_start`: flush, then `value_start`, consume
any pending tag, and emit `MappingStart`. -/
def emit_mapping_start (s : Serializer) : Serializer :=
  mapping_start_after_flush (flush_mapping_start s)

/-- `Serializer::emit_mapping_end`. -/
def emit_mapping_end (s : Serializer) : Serializer :=
  value_end (emit .mappingEnd s)

/-- `Serializer::emit_sequence_start`. -/
def emit_sequence_start (s : Serializer) : Serializer :=
  let s := flush_mapping_start s
  let s := value_start s
  let (tag, s) := take_tag s
  emit (.sequenceStart tag) s

/-- `Serializer::emit_sequence_end`. -/
def emit_sequence_end (s : Serializer) : Serializer :=
  value_end (emit .sequenceEnd s)

/-- `Serializer::emit_scalar`: flush any deferred mapping start, attach
a pending tag to the scalar, then bracket the scalar event with
`value_start`/`value_end`. -/
def emit_scalar (sc : Scalar) (s : Serializer) : Serializer :=
  let s := flush_mapping_start s
  let (tag, s) := take_tag s
  let sc := match tag with
            | some t => { sc with tag := some t }
            | none => sc
  let s := value_start s
  let s := emit (.scalar sc) s
  value_end s

/-! ### The scalar style classifier of `serialize_str` -/

/-- The exact string-literal set matched by `serialize_str` in `ser.rs`
(YAML boolean-like tokens in the three casings the source lists). -/
def boolLikeTokens : List String :=
  ["y", "Y", "yes", "Yes", "YES", "n", "N", "no", "No", "NO",
   "true", "True", "TRUE", "false", "False", "FALSE",
   "on", "On", "ON", "off", "Off", "OFF"]

/-- Strip one leading `+`/`-` sign from a character list. -/
def charsStripSign : List Char → List Char
  | c :: rest => if c = '+' || c = '-' then rest else c :: rest
  | [] => []

/-- Modelled from the spec: part of `crate::de`'s untagged-scalar
resolution (the module is not under `src/`): does the text look like a
YAML null token. -/
def isNullLike (s : String) : Bool :=
  s ∈ (["", "~", "null", "Null", "NULL"] : List String)

/-- Modelled from the spec: does the text look like a YAML integer
(optional sign, then decimal, `0x` hex, `0o` octal or `0b` binary
digits). -/
def isIntLike (s : String) : Bool :=
  match charsStripSign s.data with
  | '0' :: 'x' :: rest =>
      !rest.isEmpty && rest.all (fun c =>
        c.isDigit || ('a' ≤ c && c ≤ 'f') || ('A' ≤ c && c ≤ 'F'))
  | '0' :: 'o' :: rest =>
      !rest.isEmpty && rest.all (fun c => '0' ≤ c && c ≤ '7')
  | '0' :: 'b' :: rest =>
      !rest.isEmpty && rest.all (fun c => c = '0' || c = '1')
  | l => !l.isEmpty && l.all (·.isDigit)

/-- Modelled from the spec: does the text look like a YAML float
(optional sign, then either an `.inf`/`.nan` token or a decimal with a
single dot). -/
def isFloatLike (s : String) : Bool :=
  let t := charsStripSign s.data
  (t == ".inf".data || t == ".Inf".data || t == ".INF".data ||
    t == ".nan".data || t == ".NaN".data || t == ".NAN".data) ||
  (!t.isEmpty && t ≠ ['.'] && t.all (fun c => c.isDigit || c = '.') &&
    t.count '.' = 1)

/-- Modelled from the spec: `crate::de`'s ambiguity predicate, used by
`serialize_str` through `visit_untagged_scalar`/`ambiguous_string`
(neither is under `src/`): would an unquoted reader interpret this text
as null, bool or number instead of a string? -/
def readsAsNonString (s : String) : Bool :=
  isNullLike s || s ∈ boolLikeTokens || isIntLike s || isFloatLike s

/-- The scalar style chosen by `Serializer::serialize_str` in `ser.rs`:
the boolean-like token list and the newline test are translated directly
from the source; the final branch models the `InferScalarStyle` visitor
(every non-string resolution and every ambiguous string yields
`SingleQuoted`, anything else yields `ScalarStyle::Any`). -/
def inferScalarStyle (value : String) : ScalarStyle :=
  if value ∈ boolLikeTokens then .singleQuoted
  else if value.data.contains '\n' then .literal
  else if readsAsNonString value then .singleQuoted
  else .any

/-- `Serializer::serialize_str`. -/
def serialize_str (value : String) (s : Serializer) : Serializer :=
  emit_scalar { tag := none, value := value, style := inferScalarStyle value } s

/-- `Serializer::serialize_unit` (also `serialize_none` and
`serialize_unit_struct`). -/
def serialize_unit (s : Serializer) : Serializer :=
  emit_scalar { tag := none, value := "null", style := .plain } s

/-- `Serializer::serialize_map` from `ser.rs`: a map of declared length
one defers its start (`CheckForTag`), unless a tag is already pending, in
which case the start is emitted at once and the state guards against a
duplicate tag. -/
def serialize_map (len : Option ℕ) (s : Serializer) : Serializer :=
  if len = some 1 then
    if s.state.isFoundTag then
      { emit_mapping_start s with state := .CheckForDuplicateTag }
    else
      { s with state := .CheckForTag }
  else
    emit_mapping_start s

/-- `<&mut Serializer as SerializeMap>::end` from `ser.rs`: a still
deferred start is emitted now, the mapping end is suppressed when the
map was consumed by the tag protocol, and the state is reset. -/
def serializeMapEnd (s : Serializer) : Serializer :=
  let s := if s.state = .CheckForTag then emit_mapping_start s else s
  let s := if s.state = .AlreadyTagged then s else emit_mapping_end s
  { s with state := .NothingInParticular }

/-- The serialization error relevant to the modelled paths
(`ErrorImpl::SerializeNestedEnum`). -/
inductive SerErr where
  | SerializeNestedEnum
deriving DecidableEq, Repr

mutual
/-- A value as described through the serde visitor contract: each
constructor corresponds to one `serialize_*` entry point of `ser.rs`
(tuples and tuple structs behave exactly like sequences there and are
represented by `vseq`; the integer/float scalar emitters differ from
`vint` only in their formatted text). -/
inductive SValue where
  | vbool (b : Bool)
  | vint (n : ℤ)
  | vstr (text : String)
  | vnull
  | vunitVariant (variant : String)
  | vnewtypeStruct (payload : SValue)
  | vnewtypeVariant (variant : String) (payload : SValue)
  | vnone
  | vsome (payload : SValue)
  | vseq (elems : SList)
  | vtupleVariant (variant : String) (elems : SList)
  | vmap (entries : SPairs)
  | vstruct (fields : SFields)
  | vstructVariant (variant : String) (fields : SFields)

/-- A list of sequence elements. -/
inductive SList where
  | nil
  | cons (head : SValue) (tail : SList)

/-- A list of map entries (serialized through `serialize_entry`). -/
inductive SPairs where
  | nil
  | cons (key value : SValue) (tail : SPairs)

/-- A list of struct fields (serialized through `serialize_field`). -/
inductive SFields where
  | nil
  | cons (name : String) (value : SValue) (tail : SFields)
end

/-- Number of entries of a map value (the declared `len` that the map's
`Serialize` impl passes to `serialize_map`). -/
def SPairs.length : SPairs → ℕ
  | .nil => 0
  | .cons _ _ t => t.length + 1

mutual
/-- Serialize one value: the dispatch a serde `Serialize` implementation
performs against `&mut Serializer`, with each arm translated from the
corresponding method of `ser.rs`. -/
def serializeValue : SValue → Serializer → Except SerErr Serializer
  | .vbool b, s =>
      .ok (emit_scalar
        { tag := none, value := if b then "true" else "false",
          style := .plain } s)
  | .vint n, s =>
      .ok (emit_scalar
        { tag := none, value := toString n, style := .plain } s)
  | .vstr text, s => .ok (serialize_str text s)
  | .vnull, s => .ok (serialize_unit s)
  | .vunitVariant variant, s =>
      if s.config.tagUnitVariants = false then
        .ok (serialize_str variant s)
      else if s.state.isFoundTag then
        .error .SerializeNestedEnum
      else
        .ok (emit_scalar { tag := none, value := "", style := .plain }
              { s with state := .FoundTag variant })
  | .vnewtypeStruct p, s => serializeValue p s
  | .vnewtypeVariant variant p, s =>
      if s.state.isFoundTag then .error .SerializeNestedEnum
      else serializeValue p { s with state := .FoundTag variant }
  | .vnone, s => .ok (serialize_unit s)
  | .vsome p, s => serializeValue p s
  | .vseq es, s => do
      let s1 := emit_sequence_start s
      let s2 ← serializeList es s1
      .ok (emit_sequence_end s2)
  | .vtupleVariant variant es, s =>
      if s.state.isFoundTag then .error .SerializeNestedEnum
      else do
        let s1 := emit_sequence_start { s with state := .FoundTag variant }
        let s2 ← serializeList es s1
        .ok (emit_sequence_end s2)
  | .vmap entries, s => do
      let s1 := serialize_map (some entries.length) s
      let s2 ← serializePairs entries s1
      .ok (serializeMapEnd s2)
  | .vstruct fields, s => do
      let s1 := emit_mapping_start s
      let s2 ← serializeFields fields s1
      .ok (emit_mapping_end s2)
  | .vstructVariant variant fields, s =>
      if s.state.isFoundTag then .error .SerializeNestedEnum
      else do
        let s1 := emit_mapping_start { s with state := .FoundTag variant }
        let s2 ← serializeFields fields s1
        .ok (emit_mapping_end s2)

/-- Serialize sequence elements (`SerializeSeq::serialize_element`). -/
def serializeList : SList → Serializer → Except SerErr Serializer
  | .nil, s => .ok s
  | .cons v t, s => do
      let s1 ← serializeValue v s
      serializeList t s1

/-- Serialize map entries through `SerializeMap::serialize_entry` from
`ser.rs`: key, then the `FoundTag` test, then value, then the
`AlreadyTagged` update. -/
def serializePairs : SPairs → Serializer → Except SerErr Serializer
  | .nil, s => .ok s
  | .cons k v t, s => do
      let s1 ← serializeValue k s
      let tagged := s1.state.isFoundTag
      let s2 ← serializeValue v s1
      let s3 := if tagged then { s2 with state := .AlreadyTagged } else s2
      serializePairs t s3

/-- Serialize struct fields (`SerializeStruct::serialize_field`: the
field name through `serialize_str`, then the value). -/
def serializeFields : SFields → Serializer → Except SerErr Serializer
  | .nil, s => .ok s
  | .cons name v t, s => do
      let s1 := serialize_str name s
      let s2 ← serializeValue v s1
      serializeFields t s2
end

/-! ### Document bracketing infrastructure

A deferred mapping start (`CheckForTag`) owes one `value_start`; the
shape lemmas below track, for every serializer operation, the emitted
event segment and how the depth moves, from which the document
bracketing property follows. -/

/-- Number of `value_start` calls a pending state still owes. -/
def owed (st : State) : ℕ := if st = .CheckForTag then 1 else 0

/-- The `DocumentStart` emitted when an operation begins at depth 0. -/
def docPre (d : ℕ) : List Event :=
  if d = 0 then [Event.documentStart] else []

/-- The `DocumentEnd` emitted when a value's encode returns the depth to
zero (absent when a deferred start keeps the exit depth at 1). -/
def docSuffix (d : ℕ) (st : State) : List Event :=
  if d = 0 ∧ st ≠ .CheckForTag then [Event.documentEnd] else []

/-- An event segment free of document boundary events. -/
def NoDoc (l : List Event) : Prop :=
  ∀ e ∈ l, e ≠ .documentStart ∧ e ≠ .documentEnd

theorem noDoc_nil : NoDoc [] := by simp [NoDoc]

theorem noDoc_append {l1 l2 : List Event} (h1 : NoDoc l1) (h2 : NoDoc l2) :
    NoDoc (l1 ++ l2) := by
  intro e he
  rcases List.mem_append.mp he with h | h
  · exact h1 e h
  · exact h2 e h

theorem docSuffix_eq (d : ℕ) (st : State) :
    (if d + owed st = 0 then [Event.documentEnd] else []) =
      docSuffix d st := by
  by_cases hst : st = .CheckForTag <;> by_cases hd : d = 0 <;>
    simp [docSuffix, owed, hst, hd]

/-- Behavior of `emit_scalar` outside `AlreadyTagged`: the state resets,
the depth moves by the owed `value_start`, and the emitted segment is the
document bracket around a `NoDoc` body. -/
theorem scalar_shape (sc : Scalar) (s : Serializer)
    (h : s.state ≠ .AlreadyTagged) :
    (emit_scalar sc s).state = .NothingInParticular ∧
    (emit_scalar sc s).depth = s.depth + owed s.state ∧
    ∃ body, NoDoc body ∧
      (emit_scalar sc s).events =
        s.events ++ docPre s.depth ++ body ++ docSuffix s.depth s.state := by
  cases hst : s.state with
  | AlreadyTagged => exact absurd hst h
  | NothingInParticular =>
      refine ⟨?_, ?_, [.scalar sc], ?_, ?_⟩ <;>
        by_cases hd : s.depth = 0 <;>
          simp_all [emit_scalar, flush_mapping_start, take_tag, value_start,
            value_end, emit, owed, docPre, docSuffix, NoDoc]
  | FoundTag t =>
      refine ⟨?_, ?_,
        [.scalar { sc with
            tag := some (if t.startsWith "!" then t else "!" ++ t) }],
        ?_, ?_⟩ <;>
        by_cases hd : s.depth = 0 <;>
          simp_all [emit_scalar, flush_mapping_start, take_tag, value_start,
            value_end, emit, owed, docPre, docSuffix, NoDoc]
  | CheckForDuplicateTag =>
      refine ⟨?_, ?_, [.scalar sc], ?_, ?_⟩ <;>
        by_cases hd : s.depth = 0 <;>
          simp_all [emit_scalar, flush_mapping_start, take_tag, value_start,
            value_end, emit, owed, docPre, docSuffix, NoDoc]
  | CheckForTag =>
      refine ⟨?_, ?_, [.mappingStart none, .scalar sc], ?_, ?_⟩ <;>
        by_cases hd : s.depth = 0 <;>
          simp_all [emit_scalar, flush_mapping_start,
            mapping_start_after_flush, take_tag, value_start, value_end,
            emit, owed, docPre, docSuffix, NoDoc]

/-- Behavior of `emit_mapping_start` outside `AlreadyTagged`: one net
`value_start` beyond the owed one, and no document-closing event. -/
theorem mapping_start_shape (s : Serializer)
    (h : s.state ≠ .AlreadyTagged) :
    (emit_mapping_start s).state = .NothingInParticular ∧
    (emit_mapping_start s).depth = s.depth + owed s.state + 1 ∧
    ∃ body, NoDoc body ∧
      (emit_mapping_start s).events = s.events ++ docPre s.depth ++ body := by
  cases hst : s.state with
  | AlreadyTagged => exact absurd hst h
  | NothingInParticular =>
      refine ⟨?_, ?_, [.mappingStart none], ?_, ?_⟩ <;>
        by_cases hd : s.depth = 0 <;>
          simp_all [emit_mapping_start, flush_mapping_start,
            mapping_start_after_flush, take_tag, value_start, emit, owed,
            docPre, NoDoc]
  | FoundTag t =>
      refine ⟨?_, ?_,
        [.mappingStart (some (if t.startsWith "!" then t else "!" ++ t))],
        ?_, ?_⟩ <;>
        by_cases hd : s.depth = 0 <;>
          simp_all [emit_mapping_start, flush_mapping_start,
            mapping_start_after_flush, take_tag, value_start, emit, owed,
            docPre, NoDoc]
  | CheckForDuplicateTag =>
      refine ⟨?_, ?_, [.mappingStart none], ?_, ?_⟩ <;>
        by_cases hd : s.depth = 0 <;>
          simp_all [emit_mapping_start, flush_mapping_start,
            mapping_start_after_flush, take_tag, value_start, emit, owed,
            docPre, NoDoc]
  | CheckForTag =>
      refine ⟨?_, ?_, [.mappingStart none, .mappingStart none], ?_, ?_⟩ <;>
        by_cases hd : s.depth = 0 <;>
          simp_all [emit_mapping_start, flush_mapping_start,
            mapping_start_after_flush, take_tag, value_start, emit, owed,
            docPre, NoDoc]

/-- Behavior of `emit_sequence_start` outside `AlreadyTagged`. -/
theorem sequence_start_shape (s : Serializer)
    (h : s.state ≠ .AlreadyTagged) :
    (emit_sequence_start s).state = .NothingInParticular ∧
    (emit_sequence_start s).depth = s.depth + owed s.state + 1 ∧
    ∃ body, NoDoc body ∧
      (emit_sequence_start s).events = s.events ++ docPre s.depth ++ body := by
  cases hst : s.state with
  | AlreadyTagged => exact absurd hst h
  | NothingInParticular =>
      refine ⟨?_, ?_, [.sequenceStart none], ?_, ?_⟩ <;>
        by_cases hd : s.depth = 0 <;>
          simp_all [emit_sequence_start, flush_mapping_start,
            mapping_start_after_flush, take_tag, value_start, emit, owed,
            docPre, NoDoc]
  | FoundTag t =>
      refine ⟨?_, ?_,
        [.sequenceStart (some (if t.startsWith "!" then t else "!" ++ t))],
        ?_, ?_⟩ <;>
        by_cases hd : s.depth = 0 <;>
          simp_all [emit_sequence_start, flush_mapping_start,
            mapping_start_after_flush, take_tag, value_start, emit, owed,
            docPre, NoDoc]
  | CheckForDuplicateTag =>
      refine ⟨?_, ?_, [.sequenceStart none], ?_, ?_⟩ <;>
        by_cases hd : s.depth = 0 <;>
          simp_all [emit_sequence_start, flush_mapping_start,
            mapping_start_after_flush, take_tag, value_start, emit, owed,
            docPre, NoDoc]
  | CheckForTag =>
      refine ⟨?_, ?_, [.mappingStart none, .sequenceStart none], ?_, ?_⟩ <;>
        by_cases hd : s.depth = 0 <;>
          simp_all [emit_sequence_start, flush_mapping_start,
            mapping_start_after_flush, take_tag, value_start, emit, owed,
            docPre, NoDoc]

/-- Behavior of `emit_mapping_end`. -/
theorem mapping_end_shape (s : Serializer) :
    (emit_mapping_end s).state = s.state ∧
    (emit_mapping_end s).depth = s.depth - 1 ∧
    (emit_mapping_end s).events = s.events ++ [.mappingEnd] ++
      (if s.depth - 1 = 0 then [Event.documentEnd] else []) := by
  by_cases hd : s.depth - 1 = 0 <;>
    simp [emit_mapping_end, value_end, emit, hd]

/-- Behavior of `emit_sequence_end`. -/
theorem sequence_end_shape (s : Serializer) :
    (emit_sequence_end s).state = s.state ∧
    (emit_sequence_end s).depth = s.depth - 1 ∧
    (emit_sequence_end s).events = s.events ++ [.sequenceEnd] ++
      (if s.depth - 1 = 0 then [Event.documentEnd] else []) := by
  by_cases hd : s.depth - 1 = 0 <;>
    simp [emit_sequence_end, value_end, emit, hd]

/-- `SerializeMap::end` at `NothingInParticular` is exactly
`emit_mapping_end`. -/
theorem serializeMapEnd_nothing (s : Serializer)
    (h : s.state = .NothingInParticular) :
    serializeMapEnd s = emit_mapping_end s := by
  by_cases hd : s.depth - 1 = 0 <;>
    simp [serializeMapEnd, h, emit_mapping_end, value_end, emit, hd]

theorem except_bind_ok {ε α β : Type} {x : Except ε α}
    {f : α → Except ε β} {b : β} (h : x >>= f = .ok b) :
    ∃ a, x = .ok a ∧ f a = .ok b := by
  cases x with
  | error e => exact absurd h (by simp [Bind.bind, Except.bind])
  | ok a =>
      refine ⟨a, rfl, ?_⟩
      simpa [Bind.bind, Except.bind] using h

theorem docPre_pos {d : ℕ} (h : d ≠ 0) : docPre d = [] := by
  simp [docPre, h]

theorem docSuffix_pos {d : ℕ} {st : State} (h : d ≠ 0) :
    docSuffix d st = [] := by
  simp [docSuffix, h]

theorem docSuffix_check (d : ℕ) : docSuffix d .CheckForTag = [] := by
  simp [docSuffix]

theorem docSuffix_not_check {d : ℕ} {st1 st2 : State}
    (h1 : st1 ≠ .CheckForTag) (h2 : st2 ≠ .CheckForTag) :
    docSuffix d st1 = docSuffix d st2 := by
  simp [docSuffix, h1, h2]

theorem owed_not_check {st : State} (h : st ≠ .CheckForTag) :
    owed st = 0 := by
  simp [owed, h]

/-- Transport the shape conclusion between two entry serializers that
share depth and events and whose states both owe nothing. -/
theorem shape_retarget (s t s' : Serializer)
    (hd : t.depth = s.depth) (he : t.events = s.events)
    (h1 : t.state ≠ .CheckForTag) (h2 : s.state ≠ .CheckForTag)
    (h : s'.state = .NothingInParticular ∧
         s'.depth = t.depth + owed t.state ∧
         ∃ body, NoDoc body ∧
           s'.events = t.events ++ docPre t.depth ++ body ++
             docSuffix t.depth t.state) :
    s'.state = .NothingInParticular ∧
    s'.depth = s.depth + owed s.state ∧
    ∃ body, NoDoc body ∧
      s'.events = s.events ++ docPre s.depth ++ body ++
        docSuffix s.depth s.state := by
  obtain ⟨ha, hb, body, hc, hev⟩ := h
  refine ⟨ha, ?_, body, hc, ?_⟩
  · rw [hb, hd, owed_not_check h1, owed_not_check h2]
  · rw [hev, hd, he, docSuffix_not_check h1 h2]

/-- A value whose serialization does not begin by overwriting a pending
`CheckForTag` state: length-one maps re-enter the deferral and every
enum-variant entry point installs `FoundTag` without flushing first, so
both lose the owed `value_start` when used as the key of a deferred
1-entry map; `Some`/newtype-struct wrappers delegate to their payload. -/
def headSafe : SValue → Bool
  | .vmap entries => decide (entries.length ≠ 1)
  | .vunitVariant _ => false
  | .vnewtypeVariant _ _ => false
  | .vtupleVariant _ _ => false
  | .vstructVariant _ _ => false
  | .vnewtypeStruct p => headSafe p
  | .vsome p => headSafe p
  | _ => true

mutual
/-- Every mapping key in the value is `headSafe`, transitively. -/
def goodKeys : SValue → Bool
  | .vbool _ => true
  | .vint _ => true
  | .vstr _ => true
  | .vnull => true
  | .vunitVariant _ => true
  | .vnewtypeStruct p => goodKeys p
  | .vnewtypeVariant _ p => goodKeys p
  | .vnone => true
  | .vsome p => goodKeys p
  | .vseq es => goodKeysList es
  | .vtupleVariant _ es => goodKeysList es
  | .vmap entries => goodKeysPairs entries
  | .vstruct fields => goodKeysFields fields
  | .vstructVariant _ fields => goodKeysFields fields

/-- `goodKeys` over sequence elements. -/
def goodKeysList : SList → Bool
  | .nil => true
  | .cons v t => goodKeys v && goodKeysList t

/-- `goodKeys` over map entries, requiring `headSafe` keys. -/
def goodKeysPairs : SPairs → Bool
  | .nil => true
  | .cons k v t => headSafe k && goodKeys k && goodKeys v && goodKeysPairs t

/-- `goodKeys` over struct fields. -/
def goodKeysFields : SFields → Bool
  | .nil => true
  | .cons _ v t => goodKeys v && goodKeysFields t
end

/-- `serialize_map(Some(1))` with a pending tag: the mapping start is
emitted at once (carrying the tag) and the state guards for duplicates. -/
theorem serialize_map_one_found (s : Serializer)
    (hft : s.state.isFoundTag = true) :
    (serialize_map (some 1) s).state = .CheckForDuplicateTag ∧
    (serialize_map (some 1) s).depth = s.depth + owed s.state + 1 ∧
    ∃ body, NoDoc body ∧
      (serialize_map (some 1) s).events =
        s.events ++ docPre s.depth ++ body := by
  have hna : s.state ≠ .AlreadyTagged := by
    intro hc
    rw [hc] at hft
    simp [State.isFoundTag] at hft
  obtain ⟨h1, h2, b, hb, he⟩ := mapping_start_shape s hna
  refine ⟨by simp [serialize_map, hft], ?_, b, hb, ?_⟩
  · simp only [serialize_map, hft, if_pos, reduceIte]
    simpa using h2
  · simp only [serialize_map, hft, if_pos, reduceIte]
    simpa using he

/-- `serialize_map(Some(1))` without a pending tag defers the start. -/
theorem serialize_map_one_defer (s : Serializer)
    (hft : s.state.isFoundTag = false) :
    serialize_map (some 1) s = { s with state := .CheckForTag } := by
  simp [serialize_map, hft]

mutual

/-- Shape of one value's serialization: outside `AlreadyTagged`, and
provided a pending `CheckForTag` is only met by a `headSafe` value and
every mapping key is `headSafe`, the encode resets the state, moves the
depth exactly by the owed `value_start`, and emits the document bracket
around a body free of document events. -/
theorem serializeValue_shape (v : SValue) (s s' : Serializer)
    (hg : goodKeys v = true) (hs : s.state ≠ .AlreadyTagged)
    (hh : s.state = .CheckForTag → headSafe v = true)
    (hok : serializeValue v s = .ok s') :
    s'.state = .NothingInParticular ∧
    s'.depth = s.depth + owed s.state ∧
    ∃ body, NoDoc body ∧
      s'.events = s.events ++ docPre s.depth ++ body ++
        docSuffix s.depth s.state := by
  cases v with
  | vbool b =>
      simp only [serializeValue, Except.ok.injEq] at hok
      subst hok
      exact scalar_shape _ s hs
  | vint n =>
      simp only [serializeValue, Except.ok.injEq] at hok
      subst hok
      exact scalar_shape _ s hs
  | vstr text =>
      simp only [serializeValue, serialize_str, Except.ok.injEq] at hok
      subst hok
      exact scalar_shape _ s hs
  | vnull =>
      simp only [serializeValue, serialize_unit, Except.ok.injEq] at hok
      subst hok
      exact scalar_shape _ s hs
  | vnone =>
      simp only [serializeValue, serialize_unit, Except.ok.injEq] at hok
      subst hok
      exact scalar_shape _ s hs
  | vunitVariant variant =>
      simp only [serializeValue] at hok
      by_cases hcfg : s.config.tagUnitVariants = false
      · rw [if_pos hcfg, serialize_str] at hok
        simp only [Except.ok.injEq] at hok
        subst hok
        exact scalar_shape _ s hs
      · rw [if_neg hcfg] at hok
        by_cases hft : s.state.isFoundTag
        · rw [if_pos hft] at hok
          exact absurd hok (by simp)
        · rw [if_neg hft] at hok
          simp only [Except.ok.injEq] at hok
          subst hok
          have hnc : s.state ≠ .CheckForTag := by
            intro hc
            have := hh hc
            simp [headSafe] at this
          exact shape_retarget s { s with state := .FoundTag variant } _
            rfl rfl (by simp) hnc (scalar_shape _ _ (by simp))
  | vnewtypeStruct p =>
      simp only [serializeValue] at hok
      simp only [goodKeys] at hg
      exact serializeValue_shape p s s' hg hs
        (fun hc => by simpa [headSafe] using hh hc) hok
  | vsome p =>
      simp only [serializeValue] at hok
      simp only [goodKeys] at hg
      exact serializeValue_shape p s s' hg hs
        (fun hc => by simpa [headSafe] using hh hc) hok
  | vnewtypeVariant variant p =>
      simp only [serializeValue] at hok
      simp only [goodKeys] at hg
      by_cases hft : s.state.isFoundTag
      · rw [if_pos hft] at hok
        exact absurd hok (by simp)
      · rw [if_neg hft] at hok
        have hnc : s.state ≠ .CheckForTag := by
          intro hc
          have := hh hc
          simp [headSafe] at this
        exact shape_retarget s { s with state := .FoundTag variant } s'
          rfl rfl (by simp) hnc
          (serializeValue_shape p _ s' hg (by simp)
            (fun hc => by simp at hc) hok)
  | vseq es =>
      simp only [serializeValue] at hok
      simp only [goodKeys] at hg
      obtain ⟨s2, hm, hf⟩ := except_bind_ok hok
      simp only [Except.ok.injEq] at hf
      subst hf
      obtain ⟨hst1, hdep1, b1, hb1, hev1⟩ := sequence_start_shape s hs
      have hd1 : (emit_sequence_start s).depth ≠ 0 := by omega
      obtain ⟨hst2, hdep2, b2, hb2, hev2⟩ :=
        serializeList_shape es _ s2 hg hd1 hst1 hm
      obtain ⟨hst3, hdep3, hev3⟩ := sequence_end_shape s2
      refine ⟨by rw [hst3, hst2], by omega,
        b1 ++ (b2 ++ [.sequenceEnd]),
        noDoc_append hb1 (noDoc_append hb2 (by simp [NoDoc])), ?_⟩
      rw [hev3, hev2, hev1,
        show s2.depth - 1 = s.depth + owed s.state from by omega,
        docSuffix_eq]
      simp [List.append_assoc]
  | vtupleVariant variant es =>
      simp only [serializeValue] at hok
      simp only [goodKeys] at hg
      by_cases hft : s.state.isFoundTag
      · rw [if_pos hft] at hok
        exact absurd hok (by simp)
      · rw [if_neg hft] at hok
        have hnc : s.state ≠ .CheckForTag := by
          intro hc
          have := hh hc
          simp [headSafe] at this
        obtain ⟨s2, hm, hf⟩ := except_bind_ok hok
        simp only [Except.ok.injEq] at hf
        subst hf
        obtain ⟨hst1, hdep1, b1, hb1, hev1⟩ :=
          sequence_start_shape { s with state := .FoundTag variant }
            (by simp)
        have hd1 :
            (emit_sequence_start
              { s with state := .FoundTag variant }).depth ≠ 0 := by
          omega
        obtain ⟨hst2, hdep2, b2, hb2, hev2⟩ :=
          serializeList_shape es _ s2 hg hd1 hst1 hm
        obtain ⟨hst3, hdep3, hev3⟩ := sequence_end_shape s2
        refine shape_retarget s { s with state := .FoundTag variant } _
          rfl rfl (by simp) hnc
          ⟨by rw [hst3, hst2], by omega,
           b1 ++ (b2 ++ [.sequenceEnd]),
           noDoc_append hb1 (noDoc_append hb2 (by simp [NoDoc])), ?_⟩
        rw [hev3, hev2, hev1,
          show s2.depth - 1 =
            ({ s with state := .FoundTag variant } : Serializer).depth +
              owed ({ s with state := .FoundTag variant } :
                Serializer).state from by omega,
          docSuffix_eq]
        simp [List.append_assoc]
  | vstruct fields =>
      simp only [serializeValue] at hok
      simp only [goodKeys] at hg
      obtain ⟨s2, hm, hf⟩ := except_bind_ok hok
      simp only [Except.ok.injEq] at hf
      subst hf
      obtain ⟨hst1, hdep1, b1, hb1, hev1⟩ := mapping_start_shape s hs
      have hd1 : (emit_mapping_start s).depth ≠ 0 := by omega
      obtain ⟨hst2, hdep2, b2, hb2, hev2⟩ :=
        serializeFields_shape fields _ s2 hg hd1 hst1 hm
      obtain ⟨hst3, hdep3, hev3⟩ := mapping_end_shape s2
      refine ⟨by rw [hst3, hst2], by omega,
        b1 ++ (b2 ++ [.mappingEnd]),
        noDoc_append hb1 (noDoc_append hb2 (by simp [NoDoc])), ?_⟩
      rw [hev3, hev2, hev1,
        show s2.depth - 1 = s.depth + owed s.state from by omega,
        docSuffix_eq]
      simp [List.append_assoc]
  | vstructVariant variant fields =>
      simp only [serializeValue] at hok
      simp only [goodKeys] at hg
      by_cases hft : s.state.isFoundTag
      · rw [if_pos hft] at hok
        exact absurd hok (by simp)
      · rw [if_neg hft] at hok
        have hnc : s.state ≠ .CheckForTag := by
          intro hc
          have := hh hc
          simp [headSafe] at this
        obtain ⟨s2, hm, hf⟩ := except_bind_ok hok
        simp only [Except.ok.injEq] at hf
        subst hf
        obtain ⟨hst1, hdep1, b1, hb1, hev1⟩ :=
          mapping_start_shape { s with state := .FoundTag variant }
            (by simp)
        have hd1 :
            (emit_mapping_start
              { s with state := .FoundTag variant }).depth ≠ 0 := by
          omega
        obtain ⟨hst2, hdep2, b2, hb2, hev2⟩ :=
          serializeFields_shape fields _ s2 hg hd1 hst1 hm
        obtain ⟨hst3, hdep3, hev3⟩ := mapping_end_shape s2
        refine shape_retarget s { s with state := .FoundTag variant } _
          rfl rfl (by simp) hnc
          ⟨by rw [hst3, hst2], by omega,
           b1 ++ (b2 ++ [.mappingEnd]),
           noDoc_append hb1 (noDoc_append hb2 (by simp [NoDoc])), ?_⟩
        rw [hev3, hev2, hev1,
          show s2.depth - 1 =
            ({ s with state := .FoundTag variant } : Serializer).depth +
              owed ({ s with state := .FoundTag variant } :
                Serializer).state from by omega,
          docSuffix_eq]
        simp [List.append_assoc]
  | vmap entries =>
      simp only [serializeValue] at hok
      simp only [goodKeys] at hg
      obtain ⟨s2, hm, hf⟩ := except_bind_ok hok
      simp only [Except.ok.injEq] at hf
      subst hf
      by_cases hlen : entries.length = 1
      · cases entries with
        | nil => simp [SPairs.length] at hlen
        | cons k v tail =>
          cases tail with
          | cons k2 v2 t2 => simp [SPairs.length] at hlen
          | nil =>
            simp only [goodKeysPairs, Bool.and_eq_true] at hg
            obtain ⟨⟨⟨hk1, hk2⟩, hv⟩, -⟩ := hg
            rw [show SPairs.length (.cons k v .nil) = 1 from rfl] at hm
            simp only [serializePairs] at hm
            obtain ⟨sk, hmk, hrest⟩ := except_bind_ok hm
            obtain ⟨sv, hmv, hrest2⟩ := except_bind_ok hrest
            by_cases hft : s.state.isFoundTag
            · -- tag already pending: the start is emitted at once
              have hnc : s.state ≠ .CheckForTag := by
                intro hc
                rw [hc] at hft
                simp [State.isFoundTag] at hft
              obtain ⟨hm1st, hm1dep, b1, hb1, hm1ev⟩ :=
                serialize_map_one_found s hft
              obtain ⟨hstk, hdepk, bk, hbk, hevk⟩ :=
                serializeValue_shape k _ sk hk2 (by rw [hm1st]; simp)
                  (fun hc => by rw [hm1st] at hc; simp at hc) hmk
              rw [hm1st, hm1dep, hm1ev] at hevk
              rw [hm1st, hm1dep] at hdepk
              have hdk : sk.depth = s.depth + owed s.state + 1 := by
                simpa [owed] using hdepk
              rw [docPre_pos (show s.depth + owed s.state + 1 ≠ 0 from by
                    omega),
                docSuffix_pos (show s.depth + owed s.state + 1 ≠ 0 from by
                    omega)] at hevk
              obtain ⟨hstv, hdepv, bv, hbv, hevv⟩ :=
                serializeValue_shape v sk sv hv
                  (by rw [hstk]; simp)
                  (fun hc => by rw [hstk] at hc; simp at hc) hmv
              have hdv : sv.depth = sk.depth := by
                rw [hdepv, hstk]
                simp [owed]
              rw [hstk] at hrest2
              simp [serializePairs, State.isFoundTag] at hrest2
              subst hrest2
              rw [serializeMapEnd_nothing sv hstv]
              obtain ⟨hst3, hdep3, hev3⟩ := mapping_end_shape sv
              refine ⟨by rw [hst3, hstv], by omega,
                b1 ++ (bk ++ (bv ++ [.mappingEnd])), ?_, ?_⟩
              · exact noDoc_append hb1 (noDoc_append hbk
                  (noDoc_append hbv (by simp [NoDoc])))
              · rw [hev3, hevv, hstk,
                  docPre_pos (show sk.depth ≠ 0 from by omega),
                  docSuffix_pos (show sk.depth ≠ 0 from by omega), hevk,
                  show sv.depth - 1 = s.depth + owed s.state from by omega,
                  docSuffix_eq]
                simp [List.append_assoc]
            · -- no tag pending: the start is deferred into the key
              have hnc : s.state ≠ .CheckForTag := by
                intro hc
                have := hh hc
                simp [headSafe, SPairs.length] at this
              rw [serialize_map_one_defer s (by simpa using hft)] at hmk
              obtain ⟨hstk, hdepk, bk, hbk, hevk⟩ :=
                serializeValue_shape k _ sk hk2 (by simp)
                  (fun _ => hk1) hmk
              have hsd : ({ s with state := State.CheckForTag } :
                  Serializer).depth = s.depth := rfl
              have hse : ({ s with state := State.CheckForTag } :
                  Serializer).events = s.events := rfl
              have hss : ({ s with state := State.CheckForTag } :
                  Serializer).state = State.CheckForTag := rfl
              rw [hss, hsd, hse] at hevk
              rw [hss, hsd] at hdepk
              have hdk : sk.depth = s.depth + 1 := by
                simpa [owed] using hdepk
              rw [docSuffix_check] at hevk
              obtain ⟨hstv, hdepv, bv, hbv, hevv⟩ :=
                serializeValue_shape v sk sv hv
                  (by rw [hstk]; simp)
                  (fun hc => by rw [hstk] at hc; simp at hc) hmv
              have hdv : sv.depth = sk.depth := by
                rw [hdepv, hstk]
                simp [owed]
              rw [hstk] at hrest2
              simp [serializePairs, State.isFoundTag] at hrest2
              subst hrest2
              rw [serializeMapEnd_nothing sv hstv]
              obtain ⟨hst3, hdep3, hev3⟩ := mapping_end_shape sv
              refine ⟨by rw [hst3, hstv], by
                  rw [hdep3, owed_not_check hnc]
                  omega,
                bk ++ (bv ++ [.mappingEnd]), ?_, ?_⟩
              · exact noDoc_append hbk
                  (noDoc_append hbv (by simp [NoDoc]))
              · rw [hev3, hevv, hstk,
                  docPre_pos (show sk.depth ≠ 0 from by omega),
                  docSuffix_pos (show sk.depth ≠ 0 from by omega), hevk,
                  show sv.depth - 1 = s.depth + owed s.state from by
                    rw [owed_not_check hnc]
                    omega,
                  docSuffix_eq]
                simp [List.append_assoc]
      · rw [show serialize_map (some entries.length) s =
            emit_mapping_start s from by
          simp [serialize_map, hlen]] at hm
        obtain ⟨hst1, hdep1, b1, hb1, hev1⟩ := mapping_start_shape s hs
        have hd1 : (emit_mapping_start s).depth ≠ 0 := by omega
        obtain ⟨hst2, hdep2, b2, hb2, hev2⟩ :=
          serializePairs_shape entries _ s2 hg hd1 hst1 hm
        rw [serializeMapEnd_nothing s2 hst2]
        obtain ⟨hst3, hdep3, hev3⟩ := mapping_end_shape s2
        refine ⟨by rw [hst3, hst2], by omega,
          b1 ++ (b2 ++ [.mappingEnd]),
          noDoc_append hb1 (noDoc_append hb2 (by simp [NoDoc])), ?_⟩
        rw [hev3, hev2, hev1,
          show s2.depth - 1 = s.depth + owed s.state from by omega,
          docSuffix_eq]
        simp [List.append_assoc]

/-- Shape of a sequence-element fold at positive depth. -/
theorem serializeList_shape (es : SList) (s s' : Serializer)
    (hg : goodKeysList es = true) (hd : s.depth ≠ 0)
    (hst : s.state = .NothingInParticular)
    (hok : serializeList es s = .ok s') :
    s'.state = .NothingInParticular ∧ s'.depth = s.depth ∧
    ∃ body, NoDoc body ∧ s'.events = s.events ++ body := by
  cases es with
  | nil =>
      simp only [serializeList, Except.ok.injEq] at hok
      subst hok
      exact ⟨hst, rfl, [], noDoc_nil, by simp⟩
  | cons v t =>
      simp only [serializeList] at hok
      simp only [goodKeysList, Bool.and_eq_true] at hg
      obtain ⟨s1, hm1, hrest⟩ := except_bind_ok hok
      obtain ⟨hst1, hdep1, b1, hb1, hev1⟩ :=
        serializeValue_shape v s s1 hg.1 (by rw [hst]; simp)
          (fun hc => by rw [hst] at hc; simp at hc) hm1
      have hdep1' : s1.depth = s.depth := by
        rw [hdep1, hst]
        simp [owed]
      obtain ⟨hst2, hdep2, b2, hb2, hev2⟩ :=
        serializeList_shape t s1 s' hg.2 (by omega) hst1 hrest
      refine ⟨hst2, by omega, b1 ++ b2, noDoc_append hb1 hb2, ?_⟩
      rw [hev2, hev1, docPre_pos hd, docSuffix_pos hd]
      simp [List.append_assoc]

/-- Shape of a map-entry fold at positive depth. -/
theorem serializePairs_shape (ps : SPairs) (s s' : Serializer)
    (hg : goodKeysPairs ps = true) (hd : s.depth ≠ 0)
    (hst : s.state = .NothingInParticular)
    (hok : serializePairs ps s = .ok s') :
    s'.state = .NothingInParticular ∧ s'.depth = s.depth ∧
    ∃ body, NoDoc body ∧ s'.events = s.events ++ body := by
  cases ps with
  | nil =>
      simp only [serializePairs, Except.ok.injEq] at hok
      subst hok
      exact ⟨hst, rfl, [], noDoc_nil, by simp⟩
  | cons k v t =>
      simp only [serializePairs] at hok
      simp only [goodKeysPairs, Bool.and_eq_true] at hg
      obtain ⟨⟨⟨hk1, hk2⟩, hv⟩, ht⟩ := hg
      obtain ⟨sk, hmk, hrest⟩ := except_bind_ok hok
      obtain ⟨sv, hmv, hrest2⟩ := except_bind_ok hrest
      obtain ⟨hstk, hdepk, bk, hbk, hevk⟩ :=
        serializeValue_shape k s sk hk2 (by rw [hst]; simp)
          (fun hc => by rw [hst] at hc; simp at hc) hmk
      have hdepk' : sk.depth = s.depth := by
        rw [hdepk, hst]
        simp [owed]
      obtain ⟨hstv, hdepv, bv, hbv, hevv⟩ :=
        serializeValue_shape v sk sv hv (by rw [hstk]; simp)
          (fun hc => by rw [hstk] at hc; simp at hc) hmv
      have hdepv' : sv.depth = sk.depth := by
        rw [hdepv, hstk]
        simp [owed]
      rw [hstk] at hrest2
      simp only [State.isFoundTag] at hrest2
      obtain ⟨hst2, hdep2, b2, hb2, hev2⟩ :=
        serializePairs_shape t sv s' ht (by omega) hstv hrest2
      refine ⟨hst2, by omega, bk ++ (bv ++ b2),
        noDoc_append hbk (noDoc_append hbv hb2), ?_⟩
      rw [hev2, hevv, hevk, docPre_pos hd, docSuffix_pos hd,
        docPre_pos (by omega : sk.depth ≠ 0),
        docSuffix_pos (by omega : sk.depth ≠ 0)]
      simp [List.append_assoc]

/-- Shape of a struct-field fold at positive depth. -/
theorem serializeFields_shape (fs : SFields) (s s' : Serializer)
    (hg : goodKeysFields fs = true) (hd : s.depth ≠ 0)
    (hst : s.state = .NothingInParticular)
    (hok : serializeFields fs s = .ok s') :
    s'.state = .NothingInParticular ∧ s'.depth = s.depth ∧
    ∃ body, NoDoc body ∧ s'.events = s.events ++ body := by
  cases fs with
  | nil =>
      simp only [serializeFields, Except.ok.injEq] at hok
      subst hok
      exact ⟨hst, rfl, [], noDoc_nil, by simp⟩
  | cons name v t =>
      simp only [serializeFields, serialize_str] at hok
      simp only [goodKeysFields, Bool.and_eq_true] at hg
      obtain ⟨hnm, hnmd, bn, hbn, hevn⟩ :=
        scalar_shape (Scalar.mk none name (inferScalarStyle name)) s
          (by rw [hst]; simp)
      obtain ⟨sv, hmv, hrest⟩ := except_bind_ok hok
      rw [hst] at hnmd
      have hnmd' :
          (emit_scalar (Scalar.mk none name (inferScalarStyle name))
            s).depth = s.depth := by
        simpa [owed] using hnmd
      obtain ⟨hstv, hdepv, bv, hbv, hevv⟩ :=
        serializeValue_shape v _ sv hg.1 (by rw [hnm]; simp)
          (fun hc => by rw [hnm] at hc; simp at hc) hmv
      have hdepv' : sv.depth = s.depth := by
        rw [hdepv, hnm, hnmd']
        simp [owed]
      obtain ⟨hst2, hdep2, b2, hb2, hev2⟩ :=
        serializeFields_shape t sv s' hg.2 (by omega) hstv hrest
      refine ⟨hst2, by omega, bn ++ (bv ++ b2),
        noDoc_append hbn (noDoc_append hbv hb2), ?_⟩
      rw [hev2, hevv, hevn, hnm, hnmd', hst]
      rw [docPre_pos hd, docSuffix_pos hd]
      simp [List.append_assoc]

end

/-! ### Claim theorems about the serializer -/

/-- C1: singleton-map detection.  A map of declared length one begun
with no pending tag defers its start and sets `CheckForTag`; begun with
a pending `FoundTag` it emits the tagged mapping start at once and sets
`CheckForDuplicateTag`.  At `SerializeMap::end`, a still-pending
`CheckForTag` emits the deferred mapping start then (the source's
`flush_mapping_start`/`emit_mapping_start` recursion emits it twice) and
a mapping end; `AlreadyTagged` suppresses the mapping end; any other
state emits the mapping end normally; the state is always reset to
`NothingInParticular`. -/
theorem singleton_map_detection :
    (∀ s : Serializer, s.state.isFoundTag = false →
      serialize_map (some 1) s = { s with state := .CheckForTag }) ∧
    (∀ (s : Serializer) (t : String), s.state = .FoundTag t →
      serialize_map (some 1) s =
        { s with
          state := .CheckForDuplicateTag,
          depth := s.depth + 1,
          events := s.events ++ docPre s.depth ++
            [.mappingStart (some (if t.startsWith "!" then t
              else "!" ++ t))] }) ∧
    (∀ s : Serializer, s.state = .CheckForTag →
      serializeMapEnd s =
        { s with
          state := .NothingInParticular,
          depth := s.depth + 1,
          events := s.events ++ docPre s.depth ++
            [.mappingStart none, .mappingStart none, .mappingEnd] }) ∧
    (∀ s : Serializer, s.state = .AlreadyTagged →
      serializeMapEnd s = { s with state := .NothingInParticular }) ∧
    (∀ s : Serializer, s.state ≠ .CheckForTag → s.state ≠ .AlreadyTagged →
      serializeMapEnd s =
        { s with
          state := .NothingInParticular,
          depth := s.depth - 1,
          events := (s.events ++ [.mappingEnd]) ++
            (if s.depth - 1 = 0 then [Event.documentEnd] else []) }) := by
  refine ⟨?_, ?_, ?_, ?_, ?_⟩
  · intro s h
    exact serialize_map_one_defer s h
  · intro s t h
    by_cases hd : s.depth = 0 <;>
      simp [serialize_map, h, State.isFoundTag, emit_mapping_start,
        flush_mapping_start, mapping_start_after_flush, take_tag,
        value_start, emit, docPre, hd]
  · intro s h
    by_cases hd : s.depth = 0 <;>
      simp [serializeMapEnd, h, emit_mapping_start, flush_mapping_start,
        mapping_start_after_flush, take_tag, value_start, emit,
        emit_mapping_end, value_end, docPre, hd]
  · intro s h
    simp [serializeMapEnd, h]
  · intro s h1 h2
    by_cases hd : s.depth - 1 = 0 <;>
      simp [serializeMapEnd, h1, h2, emit_mapping_end, value_end, emit, hd]

theorem singleton_map_detection_witness :
    serialize_map (some 1) (Serializer.new ⟨false⟩) =
      { Serializer.new ⟨false⟩ with state := .CheckForTag } ∧
    serializeMapEnd { Serializer.new ⟨false⟩ with
        state := .AlreadyTagged } =
      { Serializer.new ⟨false⟩ with state := .NothingInParticular } :=
  ⟨singleton_map_detection.1 _ rfl,
   singleton_map_detection.2.2.2.1 _ rfl⟩

/-- C2: every payload-carrying enum variant entry point fails with
`SerializeNestedEnum` when a tag is already pending, and otherwise
installs `FoundTag(variant)` so that the tag attaches to the payload's
start event (or scalar). -/
theorem enum_variant_tagging :
    (∀ (s : Serializer) (t variant : String) (p : SValue) (es : SList)
        (fs : SFields), s.state = .FoundTag t →
      serializeValue (.vnewtypeVariant variant p) s =
          .error .SerializeNestedEnum ∧
      serializeValue (.vtupleVariant variant es) s =
          .error .SerializeNestedEnum ∧
      serializeValue (.vstructVariant variant fs) s =
          .error .SerializeNestedEnum) ∧
    (∀ (s : Serializer) (variant : String) (p : SValue),
      s.state.isFoundTag = false →
      serializeValue (.vnewtypeVariant variant p) s =
        serializeValue p { s with state := .FoundTag variant }) ∧
    (∀ (s : Serializer) (variant : String) (es : SList),
      s.state = .NothingInParticular →
      serializeValue (.vtupleVariant variant es) s =
        serializeList es
          { s with
            state := .NothingInParticular,
            depth := s.depth + 1,
            events := s.events ++ docPre s.depth ++
              [.sequenceStart (some (if variant.startsWith "!" then
                variant else "!" ++ variant))] } >>=
          fun s2 => .ok (emit_sequence_end s2)) ∧
    (∀ (s : Serializer) (variant : String) (fs : SFields),
      s.state = .NothingInParticular →
      serializeValue (.vstructVariant variant fs) s =
        serializeFields fs
          { s with
            state := .NothingInParticular,
            depth := s.depth + 1,
            events := s.events ++ docPre s.depth ++
              [.mappingStart (some (if variant.startsWith "!" then
                variant else "!" ++ variant))] } >>=
          fun s2 => .ok (emit_mapping_end s2)) ∧
    (∀ (s : Serializer) (variant text : String),
      s.state = .NothingInParticular →
      serializeValue (.vnewtypeVariant variant (.vstr text)) s =
        .ok { s with
          depth := s.depth,
          events := s.events ++ docPre s.depth ++
            [.scalar (Scalar.mk
              (some (if variant.startsWith "!" then variant
                else "!" ++ variant)) text (inferScalarStyle text))] ++
            docSuffix s.depth .NothingInParticular }) := by
  refine ⟨?_, ?_, ?_, ?_, ?_⟩
  · intro s t variant p es fs h
    refine ⟨?_, ?_, ?_⟩ <;> simp [serializeValue, h, State.isFoundTag]
  · intro s variant p h
    simp [serializeValue, h]
  · intro s variant es h
    obtain ⟨cfg, d, st, evs⟩ := s
    simp only at h
    subst h
    by_cases hd : d = 0 <;>
      simp [serializeValue, State.isFoundTag, emit_sequence_start,
        flush_mapping_start, take_tag, value_start, emit, docPre, hd]
  · intro s variant fs h
    obtain ⟨cfg, d, st, evs⟩ := s
    simp only at h
    subst h
    by_cases hd : d = 0 <;>
      simp [serializeValue, State.isFoundTag, emit_mapping_start,
        flush_mapping_start, mapping_start_after_flush, take_tag,
        value_start, emit, docPre, hd]
  · intro s variant text h
    obtain ⟨cfg, d, st, evs⟩ := s
    simp only at h
    subst h
    by_cases hd : d = 0 <;>
      simp [serializeValue, serialize_str, State.isFoundTag, emit_scalar,
        flush_mapping_start, take_tag, value_start, value_end, emit,
        docPre, docSuffix, hd]

theorem enum_variant_tagging_witness :
    serializeValue (.vnewtypeVariant "V" .vnull)
      { Serializer.new ⟨false⟩ with state := .FoundTag "t" } =
      .error .SerializeNestedEnum ∧
    serializeValue (.vnewtypeVariant "B" (.vstr "x"))
        (Serializer.new ⟨false⟩) =
      .ok { Serializer.new ⟨false⟩ with
        depth := 0,
        events := [Event.streamStart] ++ docPre 0 ++
          [.scalar (Scalar.mk (some (if "B".startsWith "!" then "B"
            else "!" ++ "B")) "x" (inferScalarStyle "x"))] ++
          docSuffix 0 .NothingInParticular } :=
  ⟨(enum_variant_tagging.1 _ "t" "V" .vnull .nil .nil rfl).1,
   enum_variant_tagging.2.2.2.2 _ "B" "x" rfl⟩

/-- The concrete value refuting the universal document-bracket claim:
a mapping whose key is itself a one-entry mapping. -/
def mapKeyedByMap : SValue :=
  .vmap (.cons (.vmap (.cons (.vstr "k") (.vstr "v") .nil))
    (.vstr "x") .nil)

/-- C3 counterexample: encoding a map whose key is a one-entry map emits
two `DocumentStart` and three `DocumentEnd` events — the increments and
decrements do not balance (one decrement saturates) and more than one
document pair appears, refuting "exactly one DocumentStart/DocumentEnd
pair brackets the value" as stated for every value. -/
theorem document_bracketing_counterexample :
    ((serializeValue mapKeyedByMap (Serializer.new ⟨false⟩)).toOption.map
        (fun s' => (s'.events.count Event.documentStart,
          s'.events.count Event.documentEnd))) = some (2, 3) := by
  decide

/-- C3 (amended): the depth counter starts at 0; `value_start` at depth
0 emits `DocumentStart` before incrementing; `value_end` returning the
depth to 0 emits `DocumentEnd`; decrementing saturates at zero; and
across one complete value's encode — provided no mapping key is (after
unwrapping `Some`/newtype wrappers) an enum variant or a length-one map
— exactly one `DocumentStart`/`DocumentEnd` pair brackets the value. -/
theorem document_bracketing :
    (∀ cfg : SerializerConfig, (Serializer.new cfg).depth = 0) ∧
    (∀ s : Serializer, s.depth = 0 →
      value_start s =
        { s with
          depth := 1,
          events := s.events ++ [.documentStart] }) ∧
    (∀ s : Serializer, s.depth ≠ 0 →
      value_start s = { s with depth := s.depth + 1 }) ∧
    (∀ s : Serializer, s.depth = 1 →
      value_end s =
        { s with
          depth := 0,
          events := s.events ++ [.documentEnd] }) ∧
    (∀ s : Serializer, s.depth = 0 →
      value_end s =
        { s with
          depth := 0,
          events := s.events ++ [.documentEnd] }) ∧
    (∀ (v : SValue) (cfg : SerializerConfig) (s' : Serializer),
      goodKeys v = true →
      serializeValue v (Serializer.new cfg) = .ok s' →
      s'.depth = 0 ∧
      ∃ mid, NoDoc mid ∧
        s'.events = [Event.streamStart] ++ [Event.documentStart] ++
          mid ++ [Event.documentEnd]) := by
  refine ⟨fun _ => rfl, ?_, ?_, ?_, ?_, ?_⟩
  · intro s h
    simp [value_start, emit, h]
  · intro s h
    simp [value_start, emit, h]
  · intro s h
    simp [value_end, emit, h]
  · intro s h
    simp [value_end, emit, h]
  · intro v cfg s' hg hok
    obtain ⟨hst, hdep, body, hb, hev⟩ :=
      serializeValue_shape v (Serializer.new cfg) s' hg
        (by simp [Serializer.new]) (fun hc => by
          simp [Serializer.new] at hc) hok
    refine ⟨by simpa [Serializer.new, owed] using hdep, body, hb, ?_⟩
    simpa [Serializer.new, docPre, docSuffix] using hev

theorem document_bracketing_witness :
    value_start (Serializer.new ⟨false⟩) =
      { Serializer.new ⟨false⟩ with
        depth := 1,
        events := [Event.streamStart, Event.documentStart] } ∧
    ((⟨⟨false⟩, 0, .NothingInParticular,
        [Event.streamStart, Event.documentStart, .mappingStart none,
         .scalar (Scalar.mk none "a" .any),
         .scalar (Scalar.mk none "1" .plain),
         .mappingEnd, Event.documentEnd]⟩ : Serializer).depth = 0 ∧
      ∃ mid, NoDoc mid ∧
        (⟨⟨false⟩, 0, .NothingInParticular,
          [Event.streamStart, Event.documentStart, .mappingStart none,
           .scalar (Scalar.mk none "a" .any),
           .scalar (Scalar.mk none "1" .plain),
           .mappingEnd, Event.documentEnd]⟩ : Serializer).events =
          [Event.streamStart] ++ [Event.documentStart] ++ mid ++
            [Event.documentEnd]) :=
  ⟨document_bracketing.2.1 _ rfl,
   document_bracketing.2.2.2.2.2
     (.vmap (.cons (.vstr "a") (.vint 1) .nil)) ⟨false⟩ _
     (by decide) rfl⟩

/-- C7 counterexample: a plain word such as `"hello"` matches no
boolean-like token, contains no newline and is not ambiguous, yet
`serialize_str` chooses `ScalarStyle::Any` (emitter's choice), not
`Plain` as the claim states. -/
theorem scalar_style_counterexample :
    inferScalarStyle "hello" = .any ∧
    inferScalarStyle "hello" ≠ .plain := by
  constructor <;> decide

/-- C7 (amended): for every string scalar, `serialize_str` emits exactly
one scalar event whose style is: `SingleQuoted` for the boolean-like
token list; else `Literal` when the text contains a newline; else
`SingleQuoted` when the decoding path's ambiguity predicate flags the
text; else `ScalarStyle::Any` (the emitter's choice, not `Plain`). -/
theorem scalar_style_classification (text : String) (s : Serializer)
    (h1 : s.state = .NothingInParticular) (h2 : s.depth ≠ 0) :
    serialize_str text s =
      { s with
        events := s.events ++
          [Event.scalar (Scalar.mk none text
            (if text ∈ boolLikeTokens then .singleQuoted
             else if text.data.contains '\n' then .literal
             else if readsAsNonString text then .singleQuoted
             else .any))] } := by
  obtain ⟨cfg, d, st, evs⟩ := s
  simp only at h1 h2
  subst h1
  simp [serialize_str, emit_scalar, flush_mapping_start, take_tag,
    value_start, value_end, emit, inferScalarStyle, h2]

theorem scalar_style_classification_witness :
    serialize_str "x" { Serializer.new ⟨false⟩ with depth := 1 } =
      { Serializer.new ⟨false⟩ with
        depth := 1,
        events := [Event.streamStart,
          Event.scalar (Scalar.mk none "x" .any)] } :=
  (scalar_style_classification "x"
    { Serializer.new ⟨false⟩ with depth := 1 } rfl
    (by decide)).trans (by decide)

/-! ### The `singleton_map` proxy serializer (`with.rs`) -/

/-- The entries the `SerializeStructVariantAsSingletonMap` helper
accumulates in its `Mapping`, one per `serialize_field` call: each field
name is inserted as a string key with the field's value. -/
def fieldsToPairs : SFields → SPairs
  | .nil => .nil
  | .cons name v rest => .cons (.vstr name) v (fieldsToPairs rest)

/-- Whether a value is a mapping. -/
def SValue.isMap : SValue → Bool
  | .vmap _ => true
  | _ => false

/-- The call-forwarding of `singleton_map::SingletonMap` (`with.rs`),
expressed as the transformation on the value that reaches the delegate
serializer:

* `serialize_newtype_variant` (lines 452-465) calls
  `delegate.serialize_map(Some(1))`, `serialize_entry(variant, value)`,
  `end`: a one-entry map keyed by the variant name, the payload
  serialized by the plain delegate;
* `serialize_tuple_variant` (lines 504-515) keys the one-entry map by
  the variant name and collects the elements into a `Sequence` value
  that `end` serializes as the entry's value;
* `serialize_struct_variant` (lines 528-543) does the same with a
  `Mapping` of field names to values;
* `serialize_unit_variant` (lines 428-439) forwards `name`,
  `variant_index` and `variant` to the delegate unchanged — it is NOT
  redirected to a map;
* `serialize_some` (lines 471-480) re-wraps its payload in the
  `SingletonMap` proxy before forwarding;
* every other method forwards unchanged, and the compound serializers
  it returns are the delegate's own, so nested children are untouched.

The `Sequence`/`Mapping` accumulation in the tuple- and struct-variant
helpers round-trips each element through `crate::value::Serializer`; the
model identifies a value with its round-trip image. -/
def smTransform : SValue → SValue
  | .vnewtypeVariant variant p => .vmap (.cons (.vstr variant) p .nil)
  | .vtupleVariant variant es =>
      .vmap (.cons (.vstr variant) (.vseq es) .nil)
  | .vstructVariant variant fs =>
      .vmap (.cons (.vstr variant) (.vmap (fieldsToPairs fs)) .nil)
  | .vsome p => .vsome (smTransform p)
  | v => v

/-- C8 counterexample: `SingletonMap::serialize_unit_variant`
(`with.rs` lines 428-439) forwards the call to the delegate unchanged —
a unit variant is not redirected to a length-one map keyed by the
variant name, refuting the claim that all four enum-constructing entry
points are redirected. -/
theorem singleton_map_proxy_counterexample :
    smTransform (.vunitVariant "A") = .vunitVariant "A" ∧
    (smTransform (.vunitVariant "A")).isMap = false :=
  ⟨rfl, rfl⟩

/-- C8 (amended): the `singleton_map` proxy redirects the three
payload-carrying enum entry points — newtype, tuple and struct variant
— to a map of length one whose key is the variant name and whose value
is the variant payload; the unit-variant call is forwarded to the
delegate unchanged; `serialize_some` re-wraps its payload in the proxy;
and every other call is forwarded unchanged with children untouched. -/
theorem singleton_map_proxy :
    (∀ (variant : String) (p : SValue),
      smTransform (.vnewtypeVariant variant p) =
        .vmap (.cons (.vstr variant) p .nil)) ∧
    (∀ (variant : String) (es : SList),
      smTransform (.vtupleVariant variant es) =
        .vmap (.cons (.vstr variant) (.vseq es) .nil)) ∧
    (∀ (variant : String) (fs : SFields),
      smTransform (.vstructVariant variant fs) =
        .vmap (.cons (.vstr variant) (.vmap (fieldsToPairs fs)) .nil)) ∧
    (∀ variant : String,
      smTransform (.vunitVariant variant) = .vunitVariant variant) ∧
    (∀ p : SValue, smTransform (.vsome p) = .vsome (smTransform p)) ∧
    (∀ b : Bool, smTransform (.vbool b) = .vbool b) ∧
    (∀ n : ℤ, smTransform (.vint n) = .vint n) ∧
    (∀ t : String, smTransform (.vstr t) = .vstr t) ∧
    smTransform .vnull = .vnull ∧
    smTransform .vnone = .vnone ∧
    (∀ p : SValue,
      smTransform (.vnewtypeStruct p) = .vnewtypeStruct p) ∧
    (∀ es : SList, smTransform (.vseq es) = .vseq es) ∧
    (∀ ps : SPairs, smTransform (.vmap ps) = .vmap ps) ∧
    (∀ fs : SFields, smTransform (.vstruct fs) = .vstruct fs) :=
  ⟨fun _ _ => rfl, fun _ _ => rfl, fun _ _ => rfl, fun _ => rfl,
   fun _ => rfl, fun _ => rfl, fun _ => rfl, fun _ => rfl, rfl, rfl,
   fun _ => rfl, fun _ => rfl, fun _ => rfl, fun _ => rfl⟩

/-! ### Decoding an enum through `singleton_map` (`with.rs`) -/

/-- Modelled from the spec: the decode-side error classes.
`shapeMismatchSingleKeyMap` stands for serde's
`de::Error::invalid_value(Unexpected::Map, &"map with a single key")`,
the spec's ShapeMismatch class (the crate error module is not in
`src/`); `delegateContract` marks a `MapAccess` protocol violation — a
value requested with no key pending — unreachable below. -/
inductive DeErr where
  | shapeMismatchSingleKeyMap
  | delegateContract
  deriving DecidableEq, Repr

/-- Modelled from the spec: the `MapAccess` delegate that
`SingletonMapAsEnum` wraps, walking an in-memory list of the map's
entries; `pending` holds the value whose key was just consumed by
`next_key_seed`.  The in-memory walk itself never fails, so the `?`
propagation of delegate errors in the source has no error to carry. -/
structure MapAccess (V : Type) where
  pending : Option V
  rest : List (String × V)

/-- Modelled from the spec: `MapAccess::next_key_seed` / `next_key` —
`none` when the entries are exhausted, otherwise the next key, leaving
its value pending. -/
def MapAccess.next_key_seed {V : Type} :
    MapAccess V → Option String × MapAccess V
  | ⟨_, []⟩ => (none, ⟨none, []⟩)
  | ⟨_, (k, v) :: rest⟩ => (some k, ⟨some v, rest⟩)

/-- Modelled from the spec: `MapAccess::next_value_seed` — take the
pending value. -/
def MapAccess.next_value_seed {V : Type} :
    MapAccess V → Except DeErr (V × MapAccess V)
  | ⟨some v, rest⟩ => .ok (v, ⟨none, rest⟩)
  | ⟨none, _⟩ => .error .delegateContract

/-- `EnumAccess::variant_seed` for `SingletonMapAsEnum`, translated
from `with.rs` lines 1126-1142: draw the next key from the delegate;
if there is none the map had zero keys and the call fails with
`invalid_value(Unexpected::Map, &"map with a single key")`; otherwise
the key names the variant and the same access continues as the
`VariantAccess`. -/
def variant_seed {V : Type} (m : MapAccess V) :
    Except DeErr (String × MapAccess V) :=
  match m.next_key_seed with
  | (none, _) => .error .shapeMismatchSingleKeyMap
  | (some k, mk) => .ok (k, mk)

/-- `VariantAccess::newtype_variant_seed` for `SingletonMapAsEnum`,
translated from `with.rs` lines 1158-1173: read the value of the
consumed key, then demand that no further key follows; a second key
fails with the same `invalid_value(Unexpected::Map, &"map with a single
key")` error. -/
def newtype_variant_seed {V : Type} (m : MapAccess V) :
    Except DeErr V := do
  let (v, mv) ← m.next_value_seed
  match mv.next_key_seed with
  | (none, _) => .ok v
  | (some _, _) => .error .shapeMismatchSingleKeyMap

/-- Decoding a newtype enum variant through the singleton-map
representation: `visit_map` hands the delegate to `SingletonMapAsEnum`,
`variant_seed` selects the variant, `newtype_variant_seed` reads the
payload. -/
def decodeSingletonMapEnum {V : Type} (entries : List (String × V)) :
    Except DeErr (String × V) := do
  let (variant, m) ← variant_seed (⟨none, entries⟩ : MapAccess V)
  let v ← newtype_variant_seed m
  .ok (variant, v)

/-- C9: decoding an enum through the singleton-map representation from
a map with zero keys fails at variant selection, and from a map with
more than one key fails when the extra key is detected after the first
entry is consumed — both with the `invalid_value` "map with a single
key" error, the spec's ShapeMismatch class — so such inputs never
decode successfully; a map with exactly one key decodes to that
key/value pair. -/
theorem singleton_map_decode_shape {V : Type} :
    (∀ entries : List (String × V), entries.length ≠ 1 →
      decodeSingletonMapEnum entries =
        .error .shapeMismatchSingleKeyMap) ∧
    (∀ (k : String) (v : V),
      decodeSingletonMapEnum [(k, v)] = .ok (k, v)) := by
  constructor
  · intro entries h
    match entries with
    | [] => rfl
    | [(k, v)] => exact absurd rfl h
    | (k, v) :: (k2, v2) :: rest => rfl
  · intro k v
    rfl

theorem singleton_map_decode_shape_witness :
    ([("a", (1 : ℕ)), ("b", 2)]).length ≠ 1 ∧
    decodeSingletonMapEnum [("a", (1 : ℕ)), ("b", 2)] =
      .error .shapeMismatchSingleKeyMap :=
  ⟨by decide, (@singleton_map_decode_shape ℕ).1 _ (by decide)⟩

end SerdeYml
